import Mathlib

/-!
Verification development for the SCRIBE context/prompt/decoder core
(`final_api.py`) and the training-side tokenization pipeline
(`final_training.py`).  Python strings are modelled as `List Char`;
Python `str.split`, `str.strip`, `str.lower`, `"sep".join` are modelled
by executable Lean functions below.
-/

set_option linter.unusedVariables false

abbrev Str := List Char

/-- The whitespace set stripped by Python `str.strip()`:
space, tab, newline, carriage return, vertical tab, form feed. -/
def pyIsSpace (c : Char) : Bool :=
  c == ' ' || c == '\t' || c == '\n' || c == '\r' ||
  c == Char.ofNat 11 || c == Char.ofNat 12

/-- Python `str.strip()`: drop leading and trailing whitespace. -/
def pyStrip (l : Str) : Str :=
  (l.dropWhile pyIsSpace).rdropWhile pyIsSpace

/-- Python `"sep".join(xs)`. -/
def pyJoin (sep : Str) : List Str → Str
  | [] => []
  | [x] => x
  | x :: xs => x ++ sep ++ pyJoin sep xs

/-- Python `str.lower()` on one character, for the ASCII range and the
Latin-1 uppercase letters (covers the accented letters appearing in the
source, e.g. `É`). -/
def pyCharLower (c : Char) : Char :=
  let n := c.toNat
  if 65 ≤ n ∧ n ≤ 90 then Char.ofNat (n + 32)
  else if 192 ≤ n ∧ n ≤ 222 ∧ n ≠ 215 then Char.ofNat (n + 32)
  else c

/-- Python `str.lower()`. -/
def pyLower (l : Str) : Str := l.map pyCharLower

/-- Python `needle in hay` (substring test). -/
def strContains (hay needle : Str) : Bool :=
  hay.tails.any (fun t => needle.isPrefixOf t)

/-- Python `str(n)` for a natural number. -/
def natToStr (n : Nat) : Str := (toString n).toList

/-- Numeric value of a digit string (most significant first). -/
def natOfDigits (ds : Str) : Nat :=
  ds.foldl (fun a c => a * 10 + (c.toNat - 48)) 0

/-! ## Dates (Python `datetime` fragment used by `calculate_days_between_dates`) -/

/-- Gregorian leap year, as in Python `calendar`/`datetime`. -/
def isLeap (y : Nat) : Bool := (y % 4 == 0 && y % 100 != 0) || y % 400 == 0

/-- Number of days in month `m` (1-based) of year `y`. -/
def daysInMonth (y m : Nat) : Nat :=
  ([31, if isLeap y then 29 else 28, 31, 30, 31, 30,
    31, 31, 30, 31, 30, 31].getD (m - 1) 0)

/-- A valid proleptic Gregorian date (year, month, day). -/
structure Date where
  year : Nat
  month : Nat
  day : Nat
deriving DecidableEq, Repr

/-- The `datetime(year, month, day)` constructor: validates its arguments
(raising, i.e. `none`, outside `datetime`'s documented ranges). -/
def mkDate (y m d : Int) : Option Date :=
  if 1 ≤ y ∧ y ≤ 9999 ∧ 1 ≤ m ∧ m ≤ 12 ∧ 1 ≤ d ∧
     d ≤ (daysInMonth y.toNat m.toNat : Int) then
    some ⟨y.toNat, m.toNat, d.toNat⟩
  else none

/-- Days in the complete months before month `m` of year `y`. -/
def daysBeforeMonth (y m : Nat) : Nat :=
  ((List.range (m - 1)).map (fun i => daysInMonth y (i + 1))).sum

/-- Python `date.toordinal()`: day number with `0001-01-01` as day 1. -/
def toOrdinal (dt : Date) : Nat :=
  365 * (dt.year - 1) + (dt.year - 1) / 4 - (dt.year - 1) / 100 +
    (dt.year - 1) / 400 + daysBeforeMonth dt.year dt.month + dt.day

/-- Python `date.weekday()`: Monday = 0, ..., Sunday = 6. -/
def weekdayOfOrdinal (o : Nat) : Nat := (o - 1) % 7

/-- Python `int(s)`: optional surrounding whitespace, optional sign,
then decimal digits. -/
def pyIntParse (s : Str) : Option Int :=
  match pyStrip s with
  | '+' :: ds => if ds ≠ [] ∧ ds.all Char.isDigit then some (natOfDigits ds) else none
  | '-' :: ds => if ds ≠ [] ∧ ds.all Char.isDigit then some (-(natOfDigits ds : Int)) else none
  | ds => if ds ≠ [] ∧ ds.all Char.isDigit then some (natOfDigits ds) else none

/-- `datetime.strptime(s, "%Y-%m-%d")`: dash-separated year (1-4 digits),
month (1-2 digits), day (1-2 digits), the whole string consumed,
then validated by the `datetime` constructor. -/
def strptimeYMD (s : Str) : Option Date :=
  match s.splitOn '-' with
  | [ys, ms, ds] =>
    if ys ≠ [] ∧ ys.length ≤ 4 ∧ ys.all Char.isDigit ∧
       ms ≠ [] ∧ ms.length ≤ 2 ∧ ms.all Char.isDigit ∧
       ds ≠ [] ∧ ds.length ≤ 2 ∧ ds.all Char.isDigit then
      mkDate (natOfDigits ys) (natOfDigits ms) (natOfDigits ds)
    else none
  | _ => none

/-- One date argument of `calculate_days_between_dates`: `DD/MM/YYYY` when a
slash is present (requiring exactly three slash-separated components,
`datetime(int(parts[2]), int(parts[1]), int(parts[0]))`), otherwise
`strptime(s[:10], "%Y-%m-%d")`.  Any failure is `none` (the Python code
raises and the surrounding `try` returns the default). -/
def parseDateArg (s : Str) : Option Date :=
  if s.contains '/' then
    match s.splitOn '/' with
    | [p0, p1, p2] => do
      let d ← pyIntParse p0
      let m ← pyIntParse p1
      let y ← pyIntParse p2
      mkDate y m d
    | _ => none
  else strptimeYMD (s.take 10)

/-- The Monday-to-Friday day count of the inclusive ordinal range
`[start, end]` (the Python `while current <= end` loop). -/
def businessDayCount (startD endD : Date) : Nat :=
  let so := toOrdinal startD
  let eo := toOrdinal endD
  ((List.range (eo + 1 - so)).map (fun i => so + i)).countP
    (fun o => weekdayOfOrdinal o < 5)

/-- `calculate_days_between_dates` from `final_api.py`: weekday count of the
inclusive range, clamped to at least 1; `20` on any parse failure. -/
def calculate_days_between_dates (date_start date_end : Str) : Nat :=
  match parseDateArg date_start, parseDateArg date_end with
  | some s, some e => max 1 (businessDayCount s e)
  | _, _ => 20

/-! ## `extract_date` and `extract_number` -/

/-- Try the regex `(\d{4})-(\d{2})-(\d{2})` at the head of the list. -/
def matchISOAt (l : Str) : Option Str :=
  match l with
  | a :: b :: c :: d :: '-' :: e :: f :: '-' :: g :: h :: _ =>
    if [a, b, c, d, e, f, g, h].all Char.isDigit then
      some [a, b, c, d, '-', e, f, '-', g, h]
    else none
  | _ => none

/-- `re.search` of the `YYYY-MM-DD` pattern: leftmost match. -/
def searchISO : Str → Option Str
  | [] => none
  | c :: cs =>
    match matchISOAt (c :: cs) with
    | some m => some m
    | none => searchISO cs

/-- Exactly-four-digit year at the head of the list (`\d{4}`). -/
def matchYear4 (l : Str) : Option Str :=
  match l with
  | a :: b :: c :: d :: _ =>
    if [a, b, c, d].all Char.isDigit then some [a, b, c, d] else none
  | _ => none

/-- Month-then-year part `(\d{1,2})/(\d{4})`, greedy on the month. -/
def matchMYAt (l : Str) : Option (Str × Str) :=
  match l with
  | a :: b :: '/' :: rest =>
    if a.isDigit && b.isDigit then
      match matchYear4 rest with
      | some y => some ([a, b], y)
      | none =>
        match l with
        | a :: '/' :: rest' =>
          if a.isDigit then (matchYear4 rest').map (fun y => ([a], y)) else none
        | _ => none
    else
      match l with
      | a :: '/' :: rest' =>
        if a.isDigit then (matchYear4 rest').map (fun y => ([a], y)) else none
      | _ => none
  | a :: '/' :: rest' =>
    if a.isDigit then (matchYear4 rest').map (fun y => ([a], y)) else none
  | _ => none

/-- Try the regex `(\d{1,2})/(\d{1,2})/(\d{4})` at the head of the list,
greedy on day then month, as `re` backtracking does. -/
def matchDMYAt (l : Str) : Option (Str × Str × Str) :=
  match l with
  | a :: b :: '/' :: rest =>
    if a.isDigit && b.isDigit then
      match matchMYAt rest with
      | some (m, y) => some ([a, b], m, y)
      | none =>
        match l with
        | a :: '/' :: rest' =>
          if a.isDigit then (matchMYAt rest').map (fun my => ([a], my)) else none
        | _ => none
    else
      match l with
      | a :: '/' :: rest' =>
        if a.isDigit then (matchMYAt rest').map (fun my => ([a], my)) else none
      | _ => none
  | a :: '/' :: rest' =>
    if a.isDigit then (matchMYAt rest').map (fun my => ([a], my)) else none
  | _ => none

/-- `re.search` of the `D/M/YYYY` pattern: leftmost match. -/
def searchDMY : Str → Option (Str × Str × Str)
  | [] => none
  | c :: cs =>
    match matchDMYAt (c :: cs) with
    | some m => some m
    | none => searchDMY cs

/-- Python `str.zfill(2)`. -/
def zfill2 (s : Str) : Str := List.replicate (2 - s.length) '0' ++ s

/-- `extract_date` from `final_api.py`. -/
def extract_date (text : Str) : Str :=
  if text = [] ∨ (pyStrip text).length < 6 then []
  else
    match searchISO text with
    | some m => m
    | none =>
      match searchDMY text with
      | some (d, m, y) => zfill2 d ++ '/' :: (zfill2 m ++ '/' :: y)
      | none => []

/-- `extract_number` from `final_api.py`: drop spaces, commas and euro
signs, expand a `k` suffix to three zeros, then take the first run of
digits (`re.search(r"(\d+)")`); `0` if none. -/
def extract_number (text : Str) : Nat :=
  let t := (((text.filter (fun c => c != ' ')).filter
              (fun c => c != ',')).filter (fun c => c != '€')).flatMap
              (fun c => if c = 'k' then ['0', '0', '0'] else [c])
  match t.dropWhile (fun c => !c.isDigit) with
  | [] => 0
  | c :: cs => natOfDigits (c :: cs.takeWhile Char.isDigit)

/-! ## Category normalizers -/

/-- `map_criticality` from `final_api.py`. -/
def map_criticality (text : Str) : Str :=
  let t := pyStrip (pyLower text)
  if [("faible"), ("bas"), ("low")].any (fun w => strContains t w.toList) then
    ("Faible").toList
  else if [("élevé"), ("elevé"), ("haut"), ("high"), ("critique")].any
      (fun w => strContains t w.toList) then
    ("Élevé").toList
  else ("Moyen").toList

/-- `map_probability` from `final_api.py`. -/
def map_probability (text : Str) : Str :=
  let t := pyStrip (pyLower text)
  if [("faible"), ("bas"), ("low")].any (fun w => strContains t w.toList) then
    ("Faible").toList
  else if [("élevé"), ("elevé"), ("haut"), ("high")].any
      (fun w => strContains t w.toList) then
    ("Élevée").toList
  else ("Moyenne").toList

/-- `map_impact` from `final_api.py`. -/
def map_impact (text : Str) : Str :=
  let t := pyStrip (pyLower text)
  if [("faible"), ("bas"), ("low")].any (fun w => strContains t w.toList) then
    ("Faible").toList
  else if [("élevé"), ("elevé"), ("haut"), ("high"), ("majeur")].any
      (fun w => strContains t w.toList) then
    ("Élevé").toList
  else ("Moyen").toList

/-! ## Response decoder: table row records -/

/-- A Python value stored in a decoded record: a string, or (only in
`parse_couts_fonctionnement`'s `col2`) a float, modelled as a rational. -/
inductive PyVal where
  | str (s : Str)
  | num (q : ℚ)
deriving DecidableEq, Repr

/-- `True` exactly on string-valued cells. -/
def PyVal.isString : PyVal → Bool
  | .str _ => true
  | .num _ => false

/-- A decoded record: the Python dict `{"col0": ..., "col1": ..., ...}`,
kept in insertion order. -/
abbrev Row := List (String × PyVal)

/-- `[p.strip() for p in line.split('|')]`. -/
def parseLine (line : Str) : List Str := (line.splitOn '|').map pyStrip

/-- The non-empty first-`n` lines preamble shared by all row decoders:
`content.strip().split('\n')` capped at `n` lines. -/
def decoderLines (n : Nat) (content : Str) : List Str :=
  ((pyStrip content).splitOn '\n').take n

/-- One `parse_phases` record for a line with at least 5 columns. -/
def phaseRowFull (parts : List Str) : Row :=
  [(("col0"), .str (parts.getD 0 [])),
   (("col1"), .str (parts.getD 1 [])),
   (("col2"), .str (natToStr
      (calculate_days_between_dates (parts.getD 2 []) (parts.getD 3 [])))),
   (("col3"), .str (parts.getD 2 [])),
   (("col4"), .str (parts.getD 3 [])),
   (("col5"), .str (if 5 < parts.length then parts.getD 4 []
                    else ("Équipe projet").toList))]

/-- One `parse_phases` fallback record (line with fewer than 5 columns),
`i` the 0-based line index. -/
def phaseRowFallback (i : Nat) (parts : List Str) : Row :=
  [(("col0"), .str (if 0 < parts.length then parts.getD 0 []
                    else ("Phase ").toList ++ natToStr (i + 1))),
   (("col1"), .str (if 1 < parts.length then parts.getD 1 []
                    else ("Description à définir").toList)),
   (("col2"), .str (("20").toList)),
   (("col3"), .str []),
   (("col4"), .str []),
   (("col5"), .str (("Équipe projet").toList))]

/-- The `parse_phases` line loop (`i` is the `enumerate` index). -/
def phasesLines : Nat → List Str → List Row
  | _, [] => []
  | i, line :: rest =>
    if pyStrip line = [] then phasesLines (i + 1) rest
    else
      (if 5 ≤ (parseLine line).length then phaseRowFull (parseLine line)
       else phaseRowFallback i (parseLine line)) :: phasesLines (i + 1) rest

/-- `parse_phases` from `final_api.py`. -/
def parse_phases (content : Str) : List Row :=
  phasesLines 0 (decoderLines 8 content)

/-- One `parse_jalons` record for a line with at least 3 columns. -/
def jalonRowFull (parts : List Str) : Row :=
  [(("col0"), .str (parts.getD 0 [])),
   (("col1"), .str (if 1 < parts.length then parts.getD 1 []
                    else ("Validation").toList)),
   (("col2"), .str (if 2 < parts.length then extract_date (parts.getD 2 [])
                    else [])),
   (("col3"), .str (if 3 < parts.length then parts.getD 3 []
                    else ("Critères à définir").toList))]

/-- One `parse_jalons` fallback record (line with fewer than 3 columns). -/
def jalonRowFallback (i : Nat) (parts : List Str) : Row :=
  [(("col0"), .str (if 0 < parts.length then parts.getD 0 []
                    else ("Jalon ").toList ++ natToStr (i + 1))),
   (("col1"), .str (("Validation").toList)),
   (("col2"), .str []),
   (("col3"), .str (("Critères à définir").toList))]

/-- The `parse_jalons` line loop. -/
def jalonsLines : Nat → List Str → List Row
  | _, [] => []
  | i, line :: rest =>
    if pyStrip line = [] then jalonsLines (i + 1) rest
    else
      (if 3 ≤ (parseLine line).length then jalonRowFull (parseLine line)
       else jalonRowFallback i (parseLine line)) :: jalonsLines (i + 1) rest

/-- `parse_jalons` from `final_api.py`. -/
def parse_jalons (content : Str) : List Row :=
  jalonsLines 0 (decoderLines 5 content)

/-- One `parse_contraintes` record (line with at least 3 columns). -/
def contrainteRow (parts : List Str) : Row :=
  [(("col0"), .str (parts.getD 0 [])),
   (("col1"), .str (parts.getD 1 [])),
   (("col2"), .str (map_criticality (parts.getD 2 []))),
   (("col3"), .str (if 3 < parts.length then parts.getD 3 []
                    else ("À définir").toList))]

/-- The `parse_contraintes` line loop: lines with fewer than 3 columns
are skipped (the Python loop has no `else` branch). -/
def contraintesLines : List Str → List Row
  | [] => []
  | line :: rest =>
    if pyStrip line = [] then contraintesLines rest
    else if 3 ≤ (parseLine line).length then
      contrainteRow (parseLine line) :: contraintesLines rest
    else contraintesLines rest

/-- `parse_contraintes` from `final_api.py`. -/
def parse_contraintes (content : Str) : List Row :=
  contraintesLines (decoderLines 5 content)

/-- One `parse_risques` record (line with at least 4 columns). -/
def risqueRow (parts : List Str) : Row :=
  [(("col0"), .str (parts.getD 0 [])),
   (("col1"), .str (map_probability (parts.getD 1 []))),
   (("col2"), .str (map_impact (parts.getD 2 []))),
   (("col3"), .str (parts.getD 3 [])),
   (("col4"), .str (if 4 < parts.length then parts.getD 4 []
                    else ("Chef de projet").toList))]

/-- The `parse_risques` line loop: lines with fewer than 4 columns are
skipped. -/
def risquesLines : List Str → List Row
  | [] => []
  | line :: rest =>
    if pyStrip line = [] then risquesLines rest
    else if 4 ≤ (parseLine line).length then
      risqueRow (parseLine line) :: risquesLines rest
    else risquesLines rest

/-- `parse_risques` from `final_api.py`. -/
def parse_risques (content : Str) : List Row :=
  risquesLines (decoderLines 6 content)

/-- One `parse_livrables` record (line with at least 3 columns). -/
def livrableRow (parts : List Str) : Row :=
  [(("col0"), .str (parts.getD 0 [])),
   (("col1"), .str (if 1 < parts.length then parts.getD 1 []
                    else ("Document").toList)),
   (("col2"), .str (if 2 < parts.length then extract_date (parts.getD 2 [])
                    else [])),
   (("col3"), .str (if 3 < parts.length then parts.getD 3 []
                    else ("NOTRE ENTREPRISE").toList))]

/-- The `parse_livrables` line loop: lines with fewer than 3 columns are
skipped. -/
def livrablesLines : List Str → List Row
  | [] => []
  | line :: rest =>
    if pyStrip line = [] then livrablesLines rest
    else if 3 ≤ (parseLine line).length then
      livrableRow (parseLine line) :: livrablesLines rest
    else livrablesLines rest

/-- `parse_livrables` from `final_api.py`. -/
def parse_livrables (content : Str) : List Row :=
  livrablesLines (decoderLines 6 content)

/-- One `parse_couts_construction` record (line with at least 3 columns):
`col3` is the derived total `nb_jh * tjm`. -/
def coutConstructionRow (parts : List Str) : Row :=
  let nb_jh := extract_number (parts.getD 1 [])
  let tjm := extract_number (parts.getD 2 [])
  let total := nb_jh * tjm
  [(("col0"), .str (parts.getD 0 [])),
   (("col1"), .str (natToStr nb_jh)),
   (("col2"), .str (natToStr tjm)),
   (("col3"), .str (natToStr total)),
   (("col4"), .str (if 4 < parts.length then parts.getD 4 [] else []))]

/-- The `parse_couts_construction` line loop: short lines are skipped. -/
def coutsConstructionLines : List Str → List Row
  | [] => []
  | line :: rest =>
    if pyStrip line = [] then coutsConstructionLines rest
    else if 3 ≤ (parseLine line).length then
      coutConstructionRow (parseLine line) :: coutsConstructionLines rest
    else coutsConstructionLines rest

/-- `parse_couts_construction` from `final_api.py`. -/
def parse_couts_construction (content : Str) : List Row :=
  coutsConstructionLines (decoderLines 7 content)

/-- One `parse_couts_fonctionnement` record, for a line with at least 4
columns: `col2` is the float `extract_number(parts[2]) / 12`, `col3` is
the raw `parts[3]` (the computed `total_annuel` is never stored). -/
def coutFonctionnementRow (parts : List Str) : Row :=
  let quantite := extract_number (parts.getD 1 [])
  let prix_mensuel : ℚ := (extract_number (parts.getD 2 []) : ℚ) / 12
  let total_annuel : ℚ := (quantite : ℚ) * prix_mensuel * 12
  [(("col0"), .str (parts.getD 0 [])),
   (("col1"), .str (parts.getD 1 [])),
   (("col2"), .num prix_mensuel),
   (("col3"), .str (parts.getD 3 [])),
   (("col4"), .str (if 4 < parts.length then parts.getD 4 [] else []))]

/-- The `parse_couts_fonctionnement` line loop.  The Python body reads
`parts[3]` under a `len(parts) >= 3` guard, so a line with exactly 3
columns raises `IndexError`; the raise aborts the whole call and is
modelled as `none`. -/
def coutsFonctionnementLines : List Str → Option (List Row)
  | [] => some []
  | line :: rest =>
    if pyStrip line = [] then coutsFonctionnementLines rest
    else if 3 ≤ (parseLine line).length then
      if 3 < (parseLine line).length then
        (coutsFonctionnementLines rest).map
          (fun rows => coutFonctionnementRow (parseLine line) :: rows)
      else none
    else coutsFonctionnementLines rest

/-- `parse_couts_fonctionnement` from `final_api.py` (`none` = the Python
`IndexError` escape on an exactly-3-column line). -/
def parse_couts_fonctionnement (content : Str) : Option (List Row) :=
  coutsFonctionnementLines (decoderLines 7 content)

/-! ## Field schema registry (module-level constants of `final_api.py`) -/

def ALWAYS_INCLUDED : List String :=
  [("client"), ("secteur"), ("typeProjet"), ("complexite"), ("libelle"), ("annee")]

def FIELD_GENERATION_ORDER : List String :=
  [("contexte_proj"), ("besoin"), ("objectifs"), ("perimetre"), ("horsPerimetre"),
   ("contraintes"), ("risques"), ("descriptionSolution"), ("architecture"),
   ("composantsDimensionnement"), ("phases"), ("jalons"), ("livrables"),
   ("conditionsHorsCrash"), ("conditionsCrashSite"), ("resilienceApplicative"),
   ("praPlanDegrade"), ("sauvegardes"), ("administrationSupervision"),
   ("impactCO2"), ("modalitesPartage"), ("coutsConstruction"), ("coutsFonctionnement")]

def RELEVANT_CONTEXT : List (String × List String) :=
  [(("contexte_proj"), [("besoin"), ("objectifs")]),
   (("besoin"), [("contexte_proj"), ("objectifs"), ("perimetre")]),
   (("objectifs"), [("contexte_proj"), ("besoin"), ("perimetre")]),
   (("perimetre"), [("contexte_proj"), ("besoin"), ("objectifs"), ("horsPerimetre")]),
   (("horsPerimetre"), [("perimetre"), ("contexte_proj")]),
   (("descriptionSolution"), [("besoin"), ("objectifs"), ("architecture")]),
   (("architecture"), [("descriptionSolution"), ("besoin"), ("composantsDimensionnement")]),
   (("composantsDimensionnement"), [("architecture"), ("perimetre"), ("plageService")]),
   (("conditionsHorsCrash"), [("architecture"), ("plageService"), ("resilienceApplicative")]),
   (("conditionsCrashSite"), [("conditionsHorsCrash"), ("dicp"), ("dima"), ("pdma")]),
   (("resilienceApplicative"), [("architecture"), ("conditionsHorsCrash"), ("praPlanDegrade")]),
   (("praPlanDegrade"), [("resilienceApplicative"), ("dicp"), ("dima")]),
   (("sauvegardes"), [("pdma"), ("rgpd"), ("administrationSupervision")]),
   (("administrationSupervision"), [("plageService"), ("tauxContingence")]),
   (("impactCO2"), [("composantsDimensionnement"), ("architecture")]),
   (("modalitesPartage"), [("rgpd"), ("psee"), ("lienDocumentation")]),
   (("contraintes"), [("contexte_proj"), ("besoin"), ("complexite")]),
   (("risques"), [("contraintes"), ("contexte_proj"), ("objectifs")]),
   (("phases"), [("perimetre"), ("objectifs"), ("complexite")]),
   (("livrables"), [("phases"), ("objectifs"), ("perimetre")]),
   (("jalons"), [("phases"), ("livrables"), ("objectifs")]),
   (("coutsConstruction"), [("phases"), ("perimetre"), ("complexite")]),
   (("coutsFonctionnement"), [("coutsConstruction"), ("architecture"), ("administrationSupervision")])]

def TABLE_FIELDS : List (String × List String) :=
  [(("contraintes"), [("type"), ("description"), ("criticité"), ("mitigation")]),
   (("risques"), [("risque"), ("probabilité"), ("impact"), ("planActions"), ("responsable")]),
   (("phases"), [("phase"), ("description"), ("dateDébut"), ("dateFin"), ("équipes")]),
   (("livrables"), [("nom"), ("description"), ("date"), ("responsable")]),
   (("jalons"), [("nom"), ("type"), ("date"), ("critères")]),
   (("coutsConstruction"), [("profil"), ("nombre_jh"), ("tjm"), ("total"), ("code")]),
   (("coutsFonctionnement"), [("poste"), ("quantite"), ("coutUnitaire"), ("total"), ("code")])]

/-! ## Context assembler -/

/-- A row of a tabular context value, as sent by the caller:
a dict from column keys to strings. -/
abbrev CtxRow := List (String × Str)

/-- A caller-context value: a string, a number, or a list of table rows
(the `isinstance(value, list)` branch). -/
inductive CtxVal where
  | str (s : Str)
  | num (n : Int)
  | table (rows : List CtxRow)
deriving DecidableEq

/-- A caller context: a Python dict from field name to value, in
insertion order with unique keys. -/
abbrev Context := List (String × CtxVal)

/-- Python truthiness of a context value (`if context[field]:`). -/
def CtxVal.truthy : CtxVal → Bool
  | .str s => !s.isEmpty
  | .num n => n != 0
  | .table rows => !rows.isEmpty

/-- `isinstance(value, list)`. -/
def CtxVal.isList : CtxVal → Bool
  | .table _ => true
  | _ => false

/-- The rows of a table value (callers only use it under `isList`). -/
def CtxVal.rowsOf : CtxVal → List CtxRow
  | .table rows => rows
  | _ => []

/-- The quote, `[`/`]` and `{`/`}` characters used by Python `repr`. -/
def quoteCh : Char := Char.ofNat 39
def lbrackCh : Char := Char.ofNat 91
def rbrackCh : Char := Char.ofNat 93
def lbraceCh : Char := Char.ofNat 123
def rbraceCh : Char := Char.ofNat 125

/-- Python `repr` of a plain string (no embedded quotes/escapes). -/
def pyReprStr (s : Str) : Str := quoteCh :: s ++ [quoteCh]

/-- Python `repr` of one row dict. -/
def pyReprCtxRow (r : CtxRow) : Str :=
  lbraceCh :: pyJoin ((", ").toList)
    (r.map (fun kv => pyReprStr kv.1.toList ++ (": ").toList ++ pyReprStr kv.2)) ++
  [rbraceCh]

/-- Python `str()` of a context value, as interpolated by the f-string
`f"{field}: {context[field]}"`. -/
def CtxVal.pyStr : CtxVal → Str
  | .str s => s
  | .num n => (toString n).toList
  | .table rows =>
    lbrackCh :: pyJoin ((", ").toList) (rows.map pyReprCtxRow) ++ [rbrackCh]

/-- `"col" + str(i)`. -/
def colKey (i : Nat) : String := ("col") ++ toString i

/-- `format_table_for_context` from `final_api.py`: pipe-joined column
values per row (in `TABLE_FIELDS` order, missing cells as `""`),
newline-joined rows; `""` for an empty list. -/
def format_table_for_context (data : List CtxRow) (field_name : String) : Str :=
  if data.isEmpty then []
  else
    let columns := (TABLE_FIELDS.lookup field_name).getD []
    let rows := data.map (fun item =>
      pyJoin [('|')]
        ((List.range columns.length).map
          (fun i => (item.lookup (colKey i)).getD [])))
    pyJoin [('\n')] rows

def FRONTEND_MAPPING : List (String × String) :=
  [(("sector"), ("secteur")), (("project_type"), ("typeProjet")),
   (("complexity"), ("complexite")), (("contexte"), ("contexte_proj")),
   (("besoin"), ("besoin")), (("objectifs"), ("objectifs")),
   (("lots"), ("phases"))]

/-- Python dict assignment `d[k] = v` (replace in place or append). -/
def dictSet (d : Context) (k : String) (v : CtxVal) : Context :=
  if d.any (fun p => p.1 == k) then
    d.map (fun p => if p.1 == k then (k, v) else p)
  else d ++ [(k, v)]

/-- `map_frontend_to_model_fields` from `final_api.py`. -/
def map_frontend_to_model_fields (frontend : Context) : Context :=
  frontend.foldl
    (fun acc kv => dictSet acc ((FRONTEND_MAPPING.lookup kv.1).getD kv.1) kv.2)
    []

/-- The `f"{field}: {value}"` scalar context block. -/
def scalarBlock (f : String) (v : CtxVal) : Str :=
  f.toList ++ (": ").toList ++ v.pyStr

/-- The `f"{field}:\n{value}"` tabular context block. -/
def tableBlock (f : String) (value : Str) : Str :=
  f.toList ++ (":").toList ++ ('\n') :: value

/-- The accumulated `(context_parts, used_fields)` state. -/
abbrev CtxAcc := List Str × List String

/-- One iteration of the `ALWAYS_INCLUDED` loop of
`build_context_identical_to_training`: on a present and truthy field,
append the block (tabular blocks only when non-empty) and always mark
the field used. -/
def addAlways (ctx : Context) (acc : CtxAcc) (f : String) : CtxAcc :=
  match ctx.lookup f with
  | none => acc
  | some v =>
    if v.truthy then
      if (TABLE_FIELDS.lookup f).isSome ∧ v.isList then
        if format_table_for_context v.rowsOf f ≠ [] then
          (acc.1 ++ [tableBlock f (format_table_for_context v.rowsOf f)],
           acc.2 ++ [f])
        else (acc.1, acc.2 ++ [f])
      else (acc.1 ++ [scalarBlock f v], acc.2 ++ [f])
    else acc

/-- The shared per-field body of the later loops: tabular fields append
block and used-mark only when the formatted value is non-empty; scalar
fields always append both. -/
def addStep (ctx : Context) (acc : CtxAcc) (f : String) : CtxAcc :=
  if (TABLE_FIELDS.lookup f).isSome ∧ ((ctx.lookup f).getD (.str [])).isList
  then
    if format_table_for_context ((ctx.lookup f).getD (.str [])).rowsOf f ≠ []
    then
      (acc.1 ++ [tableBlock f (format_table_for_context
         ((ctx.lookup f).getD (.str [])).rowsOf f)], acc.2 ++ [f])
    else acc
  else (acc.1 ++ [scalarBlock f ((ctx.lookup f).getD (.str []))],
        acc.2 ++ [f])

/-- The relevant-fields loop (`if field in context and field not in
used_fields`). -/
def relLoop (ctx : Context) : List String → CtxAcc → CtxAcc
  | [], acc => acc
  | f :: fs, acc =>
    relLoop ctx fs
      (if (ctx.lookup f).isSome ∧ f ∉ acc.2 then addStep ctx acc f else acc)

/-- The *full*-strategy pool loop (`if field in context`, no used-check:
the pool was already filtered against `used_fields`). -/
def poolLoop (ctx : Context) : List String → CtxAcc → CtxAcc
  | [], acc => acc
  | f :: fs, acc =>
    poolLoop ctx fs (if (ctx.lookup f).isSome then addStep ctx acc f else acc)

/-- The truncated relevant-field list for a target
(`RELEVANT_CONTEXT.get(target_field, [])[:n]`). -/
def relevantOf (target : String) (n : Nat) : List String :=
  ((RELEVANT_CONTEXT.lookup target).getD []).take n

/-- `build_context_identical_to_training`, returning the
`(context_parts, used_fields)` state just before the final join.  The
random draws are passed explicitly: `shuffle` models `random.shuffle`,
`choice` models `random.choice`, `randint35` the `random.randint(3, 5)`
draw. -/
def build_context_core (shuffle : List String → List String)
    (choice : List String → String) (randint35 : Nat)
    (target_field : String) (frontend : Context) (complexity : String) :
    CtxAcc :=
  let context := map_frontend_to_model_fields frontend
  let acc0 := ALWAYS_INCLUDED.foldl (addAlways context) ([], [])
  let available := FIELD_GENERATION_ORDER.filter (fun f => f ≠ target_field)
  if complexity = ("minimal") then
    relLoop context (relevantOf target_field 2) acc0
  else if complexity = ("medium") ∨ complexity = ("related") then
    let relevant := relevantOf target_field 3
    let acc1 := relLoop context relevant acc0
    let random_fields :=
      available.filter (fun f => f ∉ relevant ∧ f ∉ acc1.2)
    if random_fields ≠ [] then
      let random_field := choice random_fields
      if (context.lookup random_field).isSome then addStep context acc1 random_field
      else acc1
    else acc1
  else
    let relevant := relevantOf target_field 2
    let acc1 := relLoop context relevant acc0
    let random_fields :=
      available.filter (fun f => f ∉ relevant ∧ f ∉ acc1.2)
    poolLoop context ((shuffle random_fields).take randint35) acc1

/-- `build_context_identical_to_training` from `final_api.py`:
the newline-joined context string and the used-field list. -/
def build_context_identical_to_training (shuffle : List String → List String)
    (choice : List String → String) (randint35 : Nat)
    (target_field : String) (frontend : Context) (complexity : String) :
    Str × List String :=
  let acc := build_context_core shuffle choice randint35 target_field frontend complexity
  (pyJoin [('\n')] acc.1, acc.2)

/-- The field identifier a context block belongs to: the text before the
first colon. -/
def blockField (b : Str) : Str := b.takeWhile (fun c => c != ':')

/-! ## Prompt compiler and training-side rendering -/

/-- `build_prompt_identical_to_training` from `final_api.py`:
`f"[INST] <TASK>{task}</TASK>\n<CONTEXT>\n{context_str}\n</CONTEXT> [/INST]"`. -/
def build_prompt_identical_to_training (task context_str : Str) : Str :=
  ("[INST] <TASK>").toList ++ task ++ ("</TASK>\n<CONTEXT>\n").toList ++
    context_str ++ ("\n</CONTEXT> [/INST]").toList

/-- The training-side step-1 rendering of a user turn
(`prompt = f"[INST] {user_content} [/INST]"` in
`preprocess_example_fast`). -/
def mistralWrap (user_content : Str) : Str :=
  ("[INST] ").toList ++ user_content ++ (" [/INST]").toList

/-- The user turn produced by the data-generation step for a task and a
context block, as described by the spec:
`"<TASK>{task}</TASK>\n<CONTEXT>\n{context}\n</CONTEXT>"`. -/
def userTurnOf (task context_str : Str) : Str :=
  ("<TASK>").toList ++ task ++ ("</TASK>\n<CONTEXT>\n").toList ++
    context_str ++ ("\n</CONTEXT>").toList

/-! ## Tokenization and label-masking pipeline (`final_training.py`) -/

/-- The token budgets of `ModelConfig`. -/
def max_prompt_length : Nat := 1024
def max_response_length : Nat := 512
def max_length : Nat := 1536

/-- The result of `preprocess_example_fast`. -/
structure TokenizedExample where
  input_ids : List Nat
  attention_mask : List Nat
  labels : List Int
deriving Repr

/-- `preprocess_example_fast` from `final_training.py`, abstracted over
the tokenizer `tok` (token ids of a text, before truncation; the
`max_length=N, truncation=True` call is `(tok s).take N`) and the
optional BOS/EOS token ids. -/
def preprocess_example_fast (tok : Str → List Nat) (bos eos : Option Nat)
    (maxPrompt maxResp maxLen : Nat) (user_content assistant_content : Str) :
    TokenizedExample :=
  let prompt := mistralWrap user_content
  let prompt_ids := (tok prompt).take maxPrompt
  let response_ids := (tok assistant_content).take maxResp
  let bosL := bos.toList
  let eosL := eos.toList
  let ids0 := bosL ++ prompt_ids ++ response_ids ++ eosL
  let input_ids := if maxLen < ids0.length then ids0.take maxLen else ids0
  let attention_mask := List.replicate input_ids.length 1
  let prompt_length := bosL.length + prompt_ids.length
  let labels0 := List.replicate prompt_length (-100 : Int) ++
    (input_ids.drop prompt_length).map Int.ofNat
  let labels := if labels0.length ≠ input_ids.length then
    labels0.take input_ids.length else labels0
  ⟨input_ids, attention_mask, labels⟩

/-! ## Theorems -/

/-- Claim C1: for every task `t` and context `c`, the inference-time
prompt compiler returns exactly
`"[INST] <TASK>{t}</TASK>\n<CONTEXT>\n{c}\n</CONTEXT> [/INST]"`, and the
training-side step-1 rendering `"[INST] {text} [/INST]"` applied to the
user turn `"<TASK>{t}</TASK>\n<CONTEXT>\n{c}\n</CONTEXT>"` is
byte-identical to it. -/
theorem prompt_compiler_matches_training (t c : Str) :
    build_prompt_identical_to_training t c = mistralWrap (userTurnOf t c) := by
  have h1 : (("[INST] <TASK>").toList : Str) =
      ("[INST] ").toList ++ ("<TASK>").toList := rfl
  have h2 : (("\n</CONTEXT> [/INST]").toList : Str) =
      ("\n</CONTEXT>").toList ++ (" [/INST]").toList := rfl
  simp [build_prompt_identical_to_training, mistralWrap, userTurnOf, h1, h2]

/-- Claim C2: for every message pair, `preprocess_example_fast` returns
equal-length `input_ids`, `attention_mask` and `labels`, and the number
of label positions different from the sentinel `-100` is at most the
response budget plus one (the end-marker token).  Stated for every
tokenizer and every optional BOS/EOS token. -/
theorem preprocess_lengths_and_label_budget (tok : Str → List Nat)
    (bos eos : Option Nat) (u a : Str) :
    ((preprocess_example_fast tok bos eos max_prompt_length
        max_response_length max_length u a).input_ids.length =
      (preprocess_example_fast tok bos eos max_prompt_length
        max_response_length max_length u a).attention_mask.length) ∧
    ((preprocess_example_fast tok bos eos max_prompt_length
        max_response_length max_length u a).input_ids.length =
      (preprocess_example_fast tok bos eos max_prompt_length
        max_response_length max_length u a).labels.length) ∧
    (preprocess_example_fast tok bos eos max_prompt_length
        max_response_length max_length u a).labels.countP
      (fun x => x != -100) ≤ max_response_length + 1 := by
  set P := (tok (mistralWrap u)).take max_prompt_length with hP
  set R := (tok a).take max_response_length with hR
  set bosL := bos.toList with hbos
  set eosL := eos.toList with heos
  set ids0 := bosL ++ P ++ R ++ eosL with hids0
  set ids := if max_length < ids0.length then ids0.take max_length else ids0
    with hids
  set pl := bosL.length + P.length with hpl
  set labels0 := List.replicate pl (-100 : Int) ++
    (ids.drop pl).map Int.ofNat with hlabels0
  have hinput : (preprocess_example_fast tok bos eos max_prompt_length
      max_response_length max_length u a).input_ids = ids := rfl
  have hatt : (preprocess_example_fast tok bos eos max_prompt_length
      max_response_length max_length u a).attention_mask =
      List.replicate ids.length 1 := rfl
  have hlabels : (preprocess_example_fast tok bos eos max_prompt_length
      max_response_length max_length u a).labels =
      (if labels0.length ≠ ids.length then labels0.take ids.length
       else labels0) := rfl
  have hids_le : ids.length ≤ ids0.length := by
    rw [hids]; split
    · exact (List.length_take _ _).le.trans (min_le_right _ _)
    · exact le_rfl
  have hlab0_len : labels0.length = pl + (ids.length - pl) := by
    rw [hlabels0]
    simp
  have hlab_len :
      (if labels0.length ≠ ids.length then labels0.take ids.length
       else labels0).length = ids.length := by
    split
    · simp only [List.length_take]
      omega
    · omega
  refine ⟨?_, ?_, ?_⟩
  · rw [hinput, hatt]; simp
  · rw [hinput, hlabels]; exact hlab_len.symm
  · rw [hlabels]
    have hsub : List.Sublist
        (if labels0.length ≠ ids.length then labels0.take ids.length
         else labels0) labels0 := by
      split
      · exact List.take_sublist _ _
      · exact List.Sublist.refl _
    have h1 : (if labels0.length ≠ ids.length then labels0.take ids.length
        else labels0).countP (fun x => x != -100) ≤
        labels0.countP (fun x => x != -100) := hsub.countP_le _
    have h2 : labels0.countP (fun x => x != -100) ≤ ids.length - pl := by
      rw [hlabels0, List.countP_append]
      have hz : (List.replicate pl (-100 : Int)).countP
          (fun x => x != -100) = 0 := by
        refine List.countP_eq_zero.mpr ?_
        intro x hx
        rcases List.eq_of_mem_replicate hx with rfl
        simp
      have hm : ((ids.drop pl).map Int.ofNat).countP
          (fun x => x != -100) ≤ ids.length - pl := by
        have hle := List.countP_le_length (l := (ids.drop pl).map Int.ofNat)
          (p := fun x => x != -100)
        have hlen : ((ids.drop pl).map Int.ofNat).length = ids.length - pl := by
          simp
        omega
      omega
    have h3 : ids.length - pl ≤ R.length + eosL.length := by
      have hlen0 : ids0.length = pl + (R.length + eosL.length) := by
        rw [hids0, hpl]
        simp
        omega
      omega
    have h4 : R.length ≤ max_response_length := by
      rw [hR]
      exact (List.length_take _ _).le.trans (min_le_left _ _)
    have h5 : eosL.length ≤ 1 := by
      rw [heos]; cases eos <;> simp
    omega

/-- `input_ids` of a preprocessed example is always the concatenation
`BOS ++ prompt[:maxPrompt] ++ response[:maxResp] ++ EOS` truncated to
`maxLen` tokens. -/
theorem preprocess_input_ids_eq (tok : Str → List Nat) (bos eos : Option Nat)
    (mp mr ml : Nat) (u a : Str) :
    (preprocess_example_fast tok bos eos mp mr ml u a).input_ids =
      (bos.toList ++ (tok (mistralWrap u)).take mp ++ (tok a).take mr ++
        eos.toList).take ml := by
  simp only [preprocess_example_fast]
  split
  · rfl
  · exact (List.take_of_length_le (by omega)).symm

/-- Claim C3 (amended): the preprocessed example's total token length
never exceeds `max_length = 1536`; the bound is enforced by truncating
prompt and response to their own budgets before concatenation *and* by
a final hard truncation of the concatenation
(`input_ids = input_ids[:max_length]`): the result always equals the
concatenation `BOS ++ prompt[:1024] ++ response[:512] ++ EOS` cut to
1536 tokens. -/
theorem preprocess_total_length_cap (tok : Str → List Nat)
    (bos eos : Option Nat) (u a : Str) :
    (preprocess_example_fast tok bos eos max_prompt_length
        max_response_length max_length u a).input_ids.length ≤ max_length ∧
    (preprocess_example_fast tok bos eos max_prompt_length
        max_response_length max_length u a).input_ids =
      (bos.toList ++ (tok (mistralWrap u)).take max_prompt_length ++
       (tok a).take max_response_length ++ eos.toList).take max_length := by
  refine ⟨?_, preprocess_input_ids_eq _ _ _ _ _ _ _ _⟩
  rw [preprocess_input_ids_eq]
  simp [List.length_take]

/-- Claim C3 counterexample: with both marker tokens present and prompt
and response at their full budgets, the pre-concatenation truncations
leave `1 + 1024 + 512 + 1 = 1538` tokens, yet the stored example has
only 1536 — the example IS truncated again after concatenation,
refuting "no truncation is applied after the prompt and response token
sequences are concatenated".  (Any tokenizer returning at least
1024/512 tokens on the two texts realizes this; the Mistral tokenizer
has both a BOS and an EOS id.) -/
theorem preprocess_post_concat_truncation_fires :
    ((some 1 : Option Nat).toList ++
      (List.replicate 2000 0).take max_prompt_length ++
      (List.replicate 2000 0).take max_response_length ++
      (some 2 : Option Nat).toList).length = 1538 ∧
    (preprocess_example_fast (fun _ => List.replicate 2000 0) (some 1) (some 2)
      max_prompt_length max_response_length max_length
      [] []).input_ids.length = 1536 := by
  constructor
  · simp only [List.length_append, List.length_take, List.length_replicate,
      Option.toList_some, List.length_singleton]
    norm_num [max_prompt_length, max_response_length]
  · rw [preprocess_input_ids_eq]
    simp only [List.length_take, List.length_append, List.length_replicate,
      Option.toList_some, List.length_singleton]
    norm_num [max_prompt_length, max_response_length, max_length]
/-- Claim C9: the business-day computation counts, over the inclusive
range from start to end, exactly the Monday-to-Friday ordinals
(`businessDayCount`), clamps the result to a minimum of 1, and yields
the fixed default 20 on any parse failure; in particular
`2024-01-01 .. 2024-01-05` yields 5, a single weekday yields 1, and an
unparseable pair yields 20. -/
theorem calculate_days_spec :
    (∀ ds de, 1 ≤ calculate_days_between_dates ds de) ∧
    (∀ ds de s e, parseDateArg ds = some s → parseDateArg de = some e →
      calculate_days_between_dates ds de = max 1 (businessDayCount s e)) ∧
    calculate_days_between_dates (("2024-01-01").toList)
      (("2024-01-05").toList) = 5 ∧
    calculate_days_between_dates (("2024-01-03").toList)
      (("2024-01-03").toList) = 1 ∧
    calculate_days_between_dates (("foo").toList) (("bar").toList) = 20 := by
  refine ⟨?_, ?_, by decide, by decide, by decide⟩
  · intro ds de
    unfold calculate_days_between_dates
    rcases parseDateArg ds with _ | s <;> rcases parseDateArg de with _ | e <;>
      simp
  · intro ds de s e hs he
    unfold calculate_days_between_dates
    rw [hs, he]

/-- Witness for the hypotheses of `calculate_days_spec`: the general
parse-success clause applied at the concrete pair
`("2024-01-01", "2024-01-05")`. -/
theorem calculate_days_spec_witness :
    calculate_days_between_dates (("2024-01-01").toList)
      (("2024-01-05").toList) =
      max 1 (businessDayCount ⟨2024, 1, 1⟩ ⟨2024, 1, 5⟩) :=
  calculate_days_spec.2.1 _ _ _ _ (by decide) (by decide)

theorem dropWhile_append_cons_of_neg (p : Char → Bool) (c : Char)
    (hc : p c = false) (a b : Str) :
    (a ++ c :: b).dropWhile p = a.dropWhile p ++ c :: b := by
  induction a with
  | nil => simp [List.dropWhile_cons, hc]
  | cons x xs ih =>
    by_cases hx : p x
    · simp [List.dropWhile_cons, hx, ih]
    · simp [List.dropWhile_cons, hx]

theorem rdropWhile_append_cons_of_neg (p : Char → Bool) (c : Char)
    (hc : p c = false) (a b : Str) :
    (a ++ c :: b).rdropWhile p = a ++ c :: b.rdropWhile p := by
  rw [List.rdropWhile, List.rdropWhile]
  have h1 : (a ++ c :: b).reverse = b.reverse ++ c :: a.reverse := by
    simp [List.reverse_append]
  rw [h1, dropWhile_append_cons_of_neg p c hc]
  simp

theorem rdropWhile_cons_of_neg (p : Char → Bool) (c : Char)
    (hc : p c = false) (b : Str) :
    (c :: b).rdropWhile p = c :: b.rdropWhile p := by
  have h := rdropWhile_append_cons_of_neg p c hc [] b
  simpa using h

theorem dropWhile_rdropWhile_comm (p : Char → Bool) (l : Str) :
    (l.rdropWhile p).dropWhile p = (l.dropWhile p).rdropWhile p := by
  cases h : l.dropWhile p with
  | nil =>
    have hall : ∀ x ∈ l, p x := List.dropWhile_eq_nil_iff.mp h
    have h2 : l.rdropWhile p = [] := List.rdropWhile_eq_nil_iff.mpr hall
    simp [h2]
  | cons x xs =>
    have hx : p x = false := by
      have h0 : 0 < (l.dropWhile p).length := by rw [h]; simp
      have hnot := List.dropWhile_get_zero_not p l h0
      have hget := List.get_of_eq h ⟨0, h0⟩
      simp only [List.get_cons_zero] at hget
      rw [hget] at hnot
      simpa using hnot
    have hsplit : l = l.takeWhile p ++ x :: xs := by
      conv_lhs => rw [← List.takeWhile_append_dropWhile (p := p) (l := l)]
      rw [h]
    have htw : ∀ y ∈ l.takeWhile p, p y := fun y hy =>
      List.mem_takeWhile_imp hy
    conv_lhs => rw [hsplit]
    rw [rdropWhile_append_cons_of_neg p x hx]
    rw [dropWhile_append_cons_of_neg p x hx]
    rw [List.dropWhile_eq_nil_iff.mpr htw]
    rw [rdropWhile_cons_of_neg p x hx]
    simp

theorem pyStrip_dropWhile (l : Str) :
    pyStrip (l.dropWhile pyIsSpace) = pyStrip l := by
  simp [pyStrip, List.dropWhile_idempotent]

theorem pyStrip_rdropWhile (l : Str) :
    pyStrip (l.rdropWhile pyIsSpace) = pyStrip l := by
  simp only [pyStrip]
  rw [dropWhile_rdropWhile_comm, List.rdropWhile_idempotent]

theorem pyStrip_idem (l : Str) : pyStrip (pyStrip l) = pyStrip l := by
  show pyStrip ((l.dropWhile pyIsSpace).rdropWhile pyIsSpace) = pyStrip l
  rw [pyStrip_rdropWhile, pyStrip_dropWhile]

theorem mem_pyStrip (x : Char) (l : Str) (h : x ∈ pyStrip l) : x ∈ l := by
  have h1 : List.Sublist (pyStrip l) (l.dropWhile pyIsSpace) :=
    (List.rdropWhile_prefix _ _).sublist
  have h2 : List.Sublist (l.dropWhile pyIsSpace) l := List.dropWhile_sublist _
  exact (h1.trans h2).subset h

/-! ### `split`/`join` round-trip machinery -/

theorem splitOn_of_not_mem (sep : Char) (l : Str) (h : sep ∉ l) :
    l.splitOn sep = [l] := by
  apply List.splitOnP_eq_single
  intro x hx
  simp only [beq_iff_eq]
  exact fun hxe => h (hxe ▸ hx)

theorem splitOn_append_cons (sep : Char) (a b : Str) (h : sep ∉ a) :
    (a ++ sep :: b).splitOn sep = a :: b.splitOn sep := by
  apply List.splitOnP_first
  · intro x hx
    simp only [beq_iff_eq]
    exact fun hxe => h (hxe ▸ hx)
  · simp

theorem pyJoin_cons (sep : Str) (c : Str) (cs : List Str) (h : cs ≠ []) :
    pyJoin sep (c :: cs) = c ++ sep ++ pyJoin sep cs := by
  cases cs with
  | nil => exact absurd rfl h
  | cons d ds => rfl

/-- Auxiliary round-trip: splitting the right-stripped pipe-join of a
non-empty list of pipe-free cells and re-stripping each part recovers
the stripped cells. -/
theorem splitOn_rdropWhile_pyJoin (sep : Char) (hsp : pyIsSpace sep = false)
    (cells : List Str) (hne : cells ≠ []) (hc : ∀ c ∈ cells, sep ∉ c) :
    (((pyJoin [sep] cells).rdropWhile pyIsSpace).splitOn sep).map pyStrip =
      cells.map pyStrip := by
  induction cells with
  | nil => exact absurd rfl hne
  | cons c cs ih =>
    cases cs with
    | nil =>
      have hcf : sep ∉ c := hc c (by simp)
      have hcf' : sep ∉ c.rdropWhile pyIsSpace := fun hm =>
        hcf ((List.rdropWhile_prefix _ _).sublist.subset hm)
      simp only [pyJoin]
      rw [splitOn_of_not_mem sep _ hcf']
      simp [pyStrip_rdropWhile]
    | cons d ds =>
      have hcf : sep ∉ c := hc c (by simp)
      have hjoin : pyJoin [sep] (c :: d :: ds) =
          c ++ sep :: pyJoin [sep] (d :: ds) := by
        rw [pyJoin_cons _ _ _ (by simp)]
        simp
      rw [hjoin, rdropWhile_append_cons_of_neg pyIsSpace sep hsp,
        splitOn_append_cons sep _ _ hcf]
      simp only [List.map_cons]
      rw [ih (by simp) (fun x hx => hc x (by simp [hx]))]
      simp

/-- Round trip at the heart of decoding: stripping the pipe-join of
non-empty pipe-free cells, splitting on the pipe and stripping each
part yields exactly the stripped cells. -/
theorem splitOn_pyStrip_pyJoin (sep : Char) (hsp : pyIsSpace sep = false)
    (cells : List Str) (hne : cells ≠ []) (hc : ∀ c ∈ cells, sep ∉ c) :
    ((pyStrip (pyJoin [sep] cells)).splitOn sep).map pyStrip =
      cells.map pyStrip := by
  cases cells with
  | nil => exact absurd rfl hne
  | cons c cs =>
    cases cs with
    | nil =>
      have hcf : sep ∉ c := hc c (by simp)
      have hcf' : sep ∉ pyStrip c := fun hm => hcf (mem_pyStrip _ _ hm)
      simp only [pyJoin]
      rw [splitOn_of_not_mem sep _ hcf']
      simp [pyStrip_idem]
    | cons d ds =>
      have hcf : sep ∉ c := hc c (by simp)
      have hdw : sep ∉ c.dropWhile pyIsSpace := fun hm =>
        hcf ((List.dropWhile_sublist _).subset hm)
      have hjoin : pyJoin [sep] (c :: d :: ds) =
          c ++ sep :: pyJoin [sep] (d :: ds) := by
        rw [pyJoin_cons _ _ _ (by simp)]
        simp
      have hstrip : pyStrip (pyJoin [sep] (c :: d :: ds)) =
          c.dropWhile pyIsSpace ++ sep ::
            (pyJoin [sep] (d :: ds)).rdropWhile pyIsSpace := by
        rw [hjoin, pyStrip,
          dropWhile_append_cons_of_neg pyIsSpace sep hsp,
          rdropWhile_append_cons_of_neg pyIsSpace sep hsp]
      rw [hstrip, splitOn_append_cons sep _ _ hdw]
      simp only [List.map_cons]
      rw [pyStrip_dropWhile,
        splitOn_rdropWhile_pyJoin sep hsp (d :: ds) (by simp)
          (fun x hx => hc x (by simp [hx]))]
      simp

theorem not_mem_pyJoin (x : Char) (sep : Str) (cells : List Str)
    (hs : x ∉ sep) (hc : ∀ c ∈ cells, x ∉ c) : x ∉ pyJoin sep cells := by
  induction cells with
  | nil => simp [pyJoin]
  | cons c cs ih =>
    cases cs with
    | nil => exact hc c (by simp)
    | cons d ds =>
      rw [pyJoin_cons _ _ _ (by simp)]
      intro hx
      rcases List.mem_append.mp hx with hx | hx
      · rcases List.mem_append.mp hx with hx | hx
        · exact hc c (by simp) hx
        · exact hs hx
      · exact ih (fun e he => hc e (by simp [he])) hx

/-- The common single-line situation of the decoders: feeding the
pipe-join of at least two pipe- and newline-free cells produces exactly
one non-blank line, whose parsed parts are the stripped cells. -/
theorem decoder_single_line (n : Nat) (hn : 0 < n) (cells : List Str)
    (hlen : 2 ≤ cells.length)
    (hc : ∀ c ∈ cells, ('|') ∉ c ∧ ('\n') ∉ c) :
    decoderLines n (pyJoin [('|')] cells) = [pyStrip (pyJoin [('|')] cells)] ∧
    pyStrip (pyStrip (pyJoin [('|')] cells)) ≠ [] ∧
    parseLine (pyStrip (pyJoin [('|')] cells)) = cells.map pyStrip := by
  have hne : cells ≠ [] := by
    intro h; rw [h] at hlen; simp at hlen
  have hparts : parseLine (pyStrip (pyJoin [('|')] cells)) =
      cells.map pyStrip :=
    splitOn_pyStrip_pyJoin '|' (by decide) cells hne (fun c h => (hc c h).1)
  have hnl : ('\n') ∉ pyStrip (pyJoin [('|')] cells) := by
    intro hmem
    exact not_mem_pyJoin '\n' [('|')] cells (by decide)
      (fun c h => (hc c h).2) (mem_pyStrip _ _ hmem)
  have hlines : decoderLines n (pyJoin [('|')] cells) =
      [pyStrip (pyJoin [('|')] cells)] := by
    unfold decoderLines
    rw [splitOn_of_not_mem '\n' _ hnl]
    exact List.take_of_length_le (by simpa using hn)
  refine ⟨hlines, ?_, hparts⟩
  rw [pyStrip_idem]
  intro h0
  rw [h0] at hparts
  have : (parseLine ([] : Str)).length = cells.length := by
    rw [hparts]; simp
  simp [parseLine] at this
  omega

/-- Claim C5 (amended): serialising a well-formed row (schema column
count, no pipe or newline in any cell) and decoding it is a round trip
— modulo whitespace stripping and the word normalisations — for the
`contraintes` and `risques` decoders.  (It fails for `phases`, whose
decoder inserts a derived duration column, shifts the two date columns
and discards the teams column — see the counterexample — and for the
cost decoders, which recompute numeric columns.) -/
theorem table_roundtrip_contraintes_risques (c0 c1 c2 c3 d0 d1 d2 d3 d4 : Str)
    (hc : ∀ s ∈ [c0, c1, c2, c3], ('|') ∉ s ∧ ('\n') ∉ s)
    (hd : ∀ s ∈ [d0, d1, d2, d3, d4], ('|') ∉ s ∧ ('\n') ∉ s) :
    parse_contraintes (format_table_for_context
        [[(("col0"), c0), (("col1"), c1), (("col2"), c2), (("col3"), c3)]]
        ("contraintes")) =
      [[(("col0"), .str (pyStrip c0)), (("col1"), .str (pyStrip c1)),
        (("col2"), .str (map_criticality (pyStrip c2))),
        (("col3"), .str (pyStrip c3))]] ∧
    parse_risques (format_table_for_context
        [[(("col0"), d0), (("col1"), d1), (("col2"), d2), (("col3"), d3),
          (("col4"), d4)]] ("risques")) =
      [[(("col0"), .str (pyStrip d0)),
        (("col1"), .str (map_probability (pyStrip d1))),
        (("col2"), .str (map_impact (pyStrip d2))),
        (("col3"), .str (pyStrip d3)),
        (("col4"), .str (pyStrip d4))]] := by
  constructor
  · have hfmt : format_table_for_context
        [[(("col0"), c0), (("col1"), c1), (("col2"), c2), (("col3"), c3)]]
        ("contraintes") = pyJoin [('|')] [c0, c1, c2, c3] := rfl
    obtain ⟨hlines, hnb, hparts⟩ :=
      decoder_single_line 5 (by norm_num) [c0, c1, c2, c3] (by simp) hc
    rw [hfmt]
    unfold parse_contraintes
    rw [hlines]
    unfold contraintesLines
    rw [if_neg hnb, hparts]
    simp only [List.map_cons, List.map_nil]
    rw [if_pos (by simp)]
    simp [contrainteRow, contraintesLines]
  · have hfmt : format_table_for_context
        [[(("col0"), d0), (("col1"), d1), (("col2"), d2), (("col3"), d3),
          (("col4"), d4)]] ("risques") =
        pyJoin [('|')] [d0, d1, d2, d3, d4] := rfl
    obtain ⟨hlines, hnb, hparts⟩ :=
      decoder_single_line 6 (by norm_num) [d0, d1, d2, d3, d4] (by simp) hd
    rw [hfmt]
    unfold parse_risques
    rw [hlines]
    unfold risquesLines
    rw [if_neg hnb, hparts]
    simp only [List.map_cons, List.map_nil]
    rw [if_pos (by simp)]
    simp [risqueRow, risquesLines]

/-- Witness for `table_roundtrip_contraintes_risques` at concrete cells:
a `contraintes` row `type|desc|haute criticité|plan` and a `risques` row
round-trip (with `haute` normalised to `Élevé` and probability/impact
words collapsed). -/
theorem table_roundtrip_witness :
    parse_contraintes (format_table_for_context
        [[(("col0"), ("Budget").toList), (("col1"), ("Serré").toList),
          (("col2"), ("haute").toList), (("col3"), ("Suivi").toList)]]
        ("contraintes")) =
      [[(("col0"), .str (("Budget").toList)),
        (("col1"), .str (("Serré").toList)),
        (("col2"), .str (("Élevé").toList)),
        (("col3"), .str (("Suivi").toList))]] ∧
    parse_risques (format_table_for_context
        [[(("col0"), ("Retard").toList), (("col1"), ("faible").toList),
          (("col2"), ("majeur").toList), (("col3"), ("Plan B").toList),
          (("col4"), ("PMO").toList)]] ("risques")) =
      [[(("col0"), .str (("Retard").toList)),
        (("col1"), .str (("Faible").toList)),
        (("col2"), .str (("Élevé").toList)),
        (("col3"), .str (("Plan B").toList)),
        (("col4"), .str (("PMO").toList))]] := by
  have h := table_roundtrip_contraintes_risques
    (("Budget").toList) (("Serré").toList) (("haute").toList)
    (("Suivi").toList) (("Retard").toList) (("faible").toList)
    (("majeur").toList) (("Plan B").toList) (("PMO").toList)
    (by decide) (by decide)
  refine ⟨?_, ?_⟩
  · rw [h.1]; decide
  · rw [h.2]; decide

/-- Claim C5 counterexample: for the `phases` field the serialise/decode
round trip fails on a well-formed 5-column row: the decoder inserts a
derived duration (`"5"`) as `col2`, shifts the two dates into
`col3`/`col4`, and replaces the teams cell (`"Equipe"`, schema column
`col4`) by the default `"Équipe projet"` — the original `col2` value
`"2024-01-01"` and `col4` value `"Equipe"` are not reproduced (and no
normalisation maps them to the decoded values). -/
theorem phases_roundtrip_fails :
    format_table_for_context
        [[(("col0"), ("Cadrage").toList), (("col1"), ("Desc").toList),
          (("col2"), ("2024-01-01").toList),
          (("col3"), ("2024-01-05").toList),
          (("col4"), ("Equipe").toList)]] ("phases") =
      ("Cadrage|Desc|2024-01-01|2024-01-05|Equipe").toList ∧
    parse_phases (("Cadrage|Desc|2024-01-01|2024-01-05|Equipe").toList) =
      [[(("col0"), .str (("Cadrage").toList)),
        (("col1"), .str (("Desc").toList)),
        (("col2"), .str (("5").toList)),
        (("col3"), .str (("2024-01-01").toList)),
        (("col4"), .str (("2024-01-05").toList)),
        (("col5"), .str (("Équipe projet").toList))]] ∧
    (("5") : String).toList ≠ ("2024-01-01").toList ∧
    (("Équipe projet") : String).toList ≠ ("Equipe").toList := by
  refine ⟨by decide, ?_, by decide, by decide⟩
  decide

theorem phasesLines_length (i : Nat) (ls : List Str) :
    (phasesLines i ls).length =
      (ls.filter (fun l => !(pyStrip l).isEmpty)).length := by
  induction ls generalizing i with
  | nil => simp [phasesLines]
  | cons line rest ih =>
    by_cases h : pyStrip line = []
    · simp [phasesLines, h, ih]
    · simp [phasesLines, h, ih]

theorem jalonsLines_length (i : Nat) (ls : List Str) :
    (jalonsLines i ls).length =
      (ls.filter (fun l => !(pyStrip l).isEmpty)).length := by
  induction ls generalizing i with
  | nil => simp [jalonsLines]
  | cons line rest ih =>
    by_cases h : pyStrip line = []
    · simp [jalonsLines, h, ih]
    · simp [jalonsLines, h, ih]

/-- Claim C4 (amended): only the `phases` and `jalons` decoders define a
sub-minimum fallback.  For those two decoders no non-blank line (within
the line cap) is ever dropped — the decoded row count equals the
non-blank line count — and a non-blank single-column input yields
exactly one minimal record filled with the fixed default texts, so the
result is non-empty.  (The other decoders — `contraintes`, `risques`,
`livrables` and the two cost decoders — skip lines below their minimum
column count; see the counterexample.  Blank lines are skipped by every
decoder, so a lone blank line yields an empty list even for `phases`.) -/
theorem phases_jalons_fallback_total :
    (∀ content, (parse_phases content).length =
      ((decoderLines 8 content).filter (fun l => !(pyStrip l).isEmpty)).length) ∧
    (∀ content, (parse_jalons content).length =
      ((decoderLines 5 content).filter (fun l => !(pyStrip l).isEmpty)).length) ∧
    (∀ s, pyStrip s ≠ [] → ('\n') ∉ s → ('|') ∉ s →
      parse_phases s =
        [[(("col0"), .str (pyStrip s)),
          (("col1"), .str (("Description à définir").toList)),
          (("col2"), .str (("20").toList)),
          (("col3"), .str []),
          (("col4"), .str []),
          (("col5"), .str (("Équipe projet").toList))]] ∧
      parse_jalons s =
        [[(("col0"), .str (pyStrip s)),
          (("col1"), .str (("Validation").toList)),
          (("col2"), .str []),
          (("col3"), .str (("Critères à définir").toList))]] ∧
      parse_phases s ≠ [] ∧ parse_jalons s ≠ []) := by
  refine ⟨fun content => phasesLines_length 0 _,
    fun content => jalonsLines_length 0 _, ?_⟩
  intro s hs hnl hnp
  have hnl' : ('\n') ∉ pyStrip s := fun h => hnl (mem_pyStrip _ _ h)
  have hnp' : ('|') ∉ pyStrip s := fun h => hnp (mem_pyStrip _ _ h)
  have hlines8 : decoderLines 8 s = [pyStrip s] := by
    unfold decoderLines
    rw [splitOn_of_not_mem '\n' _ hnl']
    rfl
  have hlines5 : decoderLines 5 s = [pyStrip s] := by
    unfold decoderLines
    rw [splitOn_of_not_mem '\n' _ hnl']
    rfl
  have hguard : ¬ (pyStrip (pyStrip s) = []) := by
    rw [pyStrip_idem]; exact hs
  have hparts : parseLine (pyStrip s) = [pyStrip s] := by
    unfold parseLine
    rw [splitOn_of_not_mem '|' _ hnp']
    simp [pyStrip_idem]
  have hph : parse_phases s =
      [[(("col0"), .str (pyStrip s)),
        (("col1"), .str (("Description à définir").toList)),
        (("col2"), .str (("20").toList)),
        (("col3"), .str []),
        (("col4"), .str []),
        (("col5"), .str (("Équipe projet").toList))]] := by
    unfold parse_phases
    rw [hlines8]
    unfold phasesLines
    rw [if_neg hguard, hparts]
    norm_num [phaseRowFallback, phasesLines]
  have hja : parse_jalons s =
      [[(("col0"), .str (pyStrip s)),
        (("col1"), .str (("Validation").toList)),
        (("col2"), .str []),
        (("col3"), .str (("Critères à définir").toList))]] := by
    unfold parse_jalons
    rw [hlines5]
    unfold jalonsLines
    rw [if_neg hguard, hparts]
    norm_num [jalonRowFallback, jalonsLines]
  exact ⟨hph, hja, by rw [hph]; simp, by rw [hja]; simp⟩

/-- Witness for `phases_jalons_fallback_total`: the single-column
non-blank input `"x"` produces exactly the default-filled minimal
record for both decoders. -/
theorem phases_jalons_fallback_witness :
    parse_phases (("x").toList) =
      [[(("col0"), .str (("x").toList)),
        (("col1"), .str (("Description à définir").toList)),
        (("col2"), .str (("20").toList)),
        (("col3"), .str []),
        (("col4"), .str []),
        (("col5"), .str (("Équipe projet").toList))]] := by
  have h := (phases_jalons_fallback_total.2.2 (("x").toList)
    (by decide) (by decide) (by decide)).1
  rw [h]
  decide

/-- Claim C4 counterexample: `parse_contraintes` has no sub-minimum
fallback: the non-empty single-column line `"x"` (1 column < minimum 3)
is dropped and the decoder returns the empty list, refuting both "for
every tabular-field row decoder ... never drops the line" and the
non-empty-result consequence. -/
theorem contraintes_drops_short_line :
    pyStrip (("x").toList) ≠ [] ∧
    (parseLine (("x").toList)).length = 1 ∧
    parse_contraintes (("x").toList) = [] := by
  refine ⟨by decide, by decide, by decide⟩

/-! ### Row decomposition of each decoder -/

theorem mem_contraintesLines (ls : List Str) (r : Row)
    (h : r ∈ contraintesLines ls) :
    ∃ parts, 3 ≤ parts.length ∧ r = contrainteRow parts := by
  induction ls with
  | nil => simp [contraintesLines] at h
  | cons line rest ih =>
    unfold contraintesLines at h
    split at h
    · exact ih h
    · split at h
      · next hlen =>
        rcases List.mem_cons.mp h with rfl | h
        · exact ⟨parseLine line, hlen, rfl⟩
        · exact ih h
      · exact ih h

theorem mem_risquesLines (ls : List Str) (r : Row)
    (h : r ∈ risquesLines ls) :
    ∃ parts, 4 ≤ parts.length ∧ r = risqueRow parts := by
  induction ls with
  | nil => simp [risquesLines] at h
  | cons line rest ih =>
    unfold risquesLines at h
    split at h
    · exact ih h
    · split at h
      · next hlen =>
        rcases List.mem_cons.mp h with rfl | h
        · exact ⟨parseLine line, hlen, rfl⟩
        · exact ih h
      · exact ih h

theorem mem_livrablesLines (ls : List Str) (r : Row)
    (h : r ∈ livrablesLines ls) :
    ∃ parts, 3 ≤ parts.length ∧ r = livrableRow parts := by
  induction ls with
  | nil => simp [livrablesLines] at h
  | cons line rest ih =>
    unfold livrablesLines at h
    split at h
    · exact ih h
    · split at h
      · next hlen =>
        rcases List.mem_cons.mp h with rfl | h
        · exact ⟨parseLine line, hlen, rfl⟩
        · exact ih h
      · exact ih h

theorem mem_phasesLines (i : Nat) (ls : List Str) (r : Row)
    (h : r ∈ phasesLines i ls) :
    ∃ j parts, r = phaseRowFull parts ∨ r = phaseRowFallback j parts := by
  induction ls generalizing i with
  | nil => simp [phasesLines] at h
  | cons line rest ih =>
    unfold phasesLines at h
    split at h
    · exact ih _ h
    · rcases List.mem_cons.mp h with rfl | h
      · by_cases hlen : 5 ≤ (parseLine line).length
        · exact ⟨i, parseLine line, Or.inl (by rw [if_pos hlen])⟩
        · exact ⟨i, parseLine line, Or.inr (by rw [if_neg hlen])⟩
      · exact ih _ h

theorem mem_jalonsLines (i : Nat) (ls : List Str) (r : Row)
    (h : r ∈ jalonsLines i ls) :
    ∃ j parts, r = jalonRowFull parts ∨ r = jalonRowFallback j parts := by
  induction ls generalizing i with
  | nil => simp [jalonsLines] at h
  | cons line rest ih =>
    unfold jalonsLines at h
    split at h
    · exact ih _ h
    · rcases List.mem_cons.mp h with rfl | h
      · by_cases hlen : 3 ≤ (parseLine line).length
        · exact ⟨i, parseLine line, Or.inl (by rw [if_pos hlen])⟩
        · exact ⟨i, parseLine line, Or.inr (by rw [if_neg hlen])⟩
      · exact ih _ h

theorem mem_coutsConstructionLines (ls : List Str) (r : Row)
    (h : r ∈ coutsConstructionLines ls) :
    ∃ parts, 3 ≤ parts.length ∧ r = coutConstructionRow parts := by
  induction ls with
  | nil => simp [coutsConstructionLines] at h
  | cons line rest ih =>
    unfold coutsConstructionLines at h
    split at h
    · exact ih h
    · split at h
      · next hlen =>
        rcases List.mem_cons.mp h with rfl | h
        · exact ⟨parseLine line, hlen, rfl⟩
        · exact ih h
      · exact ih h

theorem mem_coutsFonctionnementLines (ls : List Str) (rows : List Row)
    (r : Row) (h : coutsFonctionnementLines ls = some rows) (hr : r ∈ rows) :
    ∃ parts, 3 < parts.length ∧ r = coutFonctionnementRow parts := by
  induction ls generalizing rows with
  | nil =>
    simp [coutsFonctionnementLines] at h
    subst h
    simp at hr
  | cons line rest ih =>
    unfold coutsFonctionnementLines at h
    split at h
    · exact ih rows h hr
    · split at h
      · split at h
        · next hlen =>
          rcases Option.map_eq_some'.mp h with ⟨rows', hrest, hrows⟩
          subst hrows
          rcases List.mem_cons.mp hr with rfl | hr'
          · exact ⟨parseLine line, hlen, rfl⟩
          · exact ih rows' hrest hr'
        · exact absurd h (by simp)
      · exact ih rows h hr

theorem contraintesLines_length_le (ls : List Str) :
    (contraintesLines ls).length ≤ ls.length := by
  induction ls with
  | nil => simp [contraintesLines]
  | cons line rest ih =>
    unfold contraintesLines
    split
    · exact ih.trans (by simp)
    · split
      · simpa using ih
      · exact ih.trans (by simp)

theorem risquesLines_length_le (ls : List Str) :
    (risquesLines ls).length ≤ ls.length := by
  induction ls with
  | nil => simp [risquesLines]
  | cons line rest ih =>
    unfold risquesLines
    split
    · exact ih.trans (by simp)
    · split
      · simpa using ih
      · exact ih.trans (by simp)

theorem livrablesLines_length_le (ls : List Str) :
    (livrablesLines ls).length ≤ ls.length := by
  induction ls with
  | nil => simp [livrablesLines]
  | cons line rest ih =>
    unfold livrablesLines
    split
    · exact ih.trans (by simp)
    · split
      · simpa using ih
      · exact ih.trans (by simp)

theorem phasesLines_length_le (i : Nat) (ls : List Str) :
    (phasesLines i ls).length ≤ ls.length := by
  induction ls generalizing i with
  | nil => simp [phasesLines]
  | cons line rest ih =>
    unfold phasesLines
    split
    · exact (ih _).trans (by simp)
    · simpa using ih (i + 1)

theorem jalonsLines_length_le (i : Nat) (ls : List Str) :
    (jalonsLines i ls).length ≤ ls.length := by
  induction ls generalizing i with
  | nil => simp [jalonsLines]
  | cons line rest ih =>
    unfold jalonsLines
    split
    · exact (ih _).trans (by simp)
    · simpa using ih (i + 1)

theorem coutsConstructionLines_length_le (ls : List Str) :
    (coutsConstructionLines ls).length ≤ ls.length := by
  induction ls with
  | nil => simp [coutsConstructionLines]
  | cons line rest ih =>
    unfold coutsConstructionLines
    split
    · exact ih.trans (by simp)
    · split
      · simpa using ih
      · exact ih.trans (by simp)

theorem coutsFonctionnementLines_length_le (ls : List Str) (rows : List Row)
    (h : coutsFonctionnementLines ls = some rows) :
    rows.length ≤ ls.length := by
  induction ls generalizing rows with
  | nil =>
    simp [coutsFonctionnementLines] at h
    simp [← h]
  | cons line rest ih =>
    unfold coutsFonctionnementLines at h
    split at h
    · exact (ih rows h).trans (by simp)
    · split at h
      · split at h
        · rcases Option.map_eq_some'.mp h with ⟨rows', hrest, hrows⟩
          subst hrows
          simpa using ih rows' hrest
        · exact absurd h (by simp)
      · exact (ih rows h).trans (by simp)

theorem decoderLines_length_le (n : Nat) (content : Str) :
    (decoderLines n content).length ≤ n := by
  unfold decoderLines
  simp

/-- Claim C8 (amended): every record returned by a row decoder is a dict
with positional keys `col0, col1, ...` in order.  The `contraintes`,
`risques`, `livrables`, `jalons` and `coutsConstruction` records carry
only string values and have exactly the schema-declared column count;
`parse_phases` records have six keys (`col0`-`col5`, one more than the
5-column schema, the extra being the derived duration); a
`parse_couts_fonctionnement` record stores a number, not a string, at
`col2`.  Every returned list is bounded by the field-specific maximum
row count (5, 6, 6, 5, 8, 7, 7 respectively). -/
theorem decoder_record_shape (content : Str) :
    (∀ r ∈ parse_contraintes content,
      r.map Prod.fst = [("col0"), ("col1"), ("col2"), ("col3")] ∧
      ∀ kv ∈ r, kv.2.isString = true) ∧
    (∀ r ∈ parse_risques content,
      r.map Prod.fst = [("col0"), ("col1"), ("col2"), ("col3"), ("col4")] ∧
      ∀ kv ∈ r, kv.2.isString = true) ∧
    (∀ r ∈ parse_livrables content,
      r.map Prod.fst = [("col0"), ("col1"), ("col2"), ("col3")] ∧
      ∀ kv ∈ r, kv.2.isString = true) ∧
    (∀ r ∈ parse_jalons content,
      r.map Prod.fst = [("col0"), ("col1"), ("col2"), ("col3")] ∧
      ∀ kv ∈ r, kv.2.isString = true) ∧
    (∀ r ∈ parse_phases content,
      r.map Prod.fst =
        [("col0"), ("col1"), ("col2"), ("col3"), ("col4"), ("col5")] ∧
      ∀ kv ∈ r, kv.2.isString = true) ∧
    (∀ r ∈ parse_couts_construction content,
      r.map Prod.fst = [("col0"), ("col1"), ("col2"), ("col3"), ("col4")] ∧
      ∀ kv ∈ r, kv.2.isString = true) ∧
    (∀ rows, parse_couts_fonctionnement content = some rows →
      ∀ r ∈ rows, ∃ (q : ℚ) (s0 s1 s3 s4 : Str), r =
        [(("col0"), .str s0), (("col1"), .str s1), (("col2"), .num q),
         (("col3"), .str s3), (("col4"), .str s4)]) ∧
    ((TABLE_FIELDS.lookup ("contraintes")).getD []).length = 4 ∧
    ((TABLE_FIELDS.lookup ("risques")).getD []).length = 5 ∧
    ((TABLE_FIELDS.lookup ("livrables")).getD []).length = 4 ∧
    ((TABLE_FIELDS.lookup ("jalons")).getD []).length = 4 ∧
    ((TABLE_FIELDS.lookup ("coutsConstruction")).getD []).length = 5 ∧
    (parse_contraintes content).length ≤ 5 ∧
    (parse_risques content).length ≤ 6 ∧
    (parse_livrables content).length ≤ 6 ∧
    (parse_jalons content).length ≤ 5 ∧
    (parse_phases content).length ≤ 8 ∧
    (parse_couts_construction content).length ≤ 7 ∧
    (∀ rows, parse_couts_fonctionnement content = some rows →
      rows.length ≤ 7) := by
  refine ⟨?_, ?_, ?_, ?_, ?_, ?_, ?_, by decide, by decide, by decide,
    by decide, by decide, ?_, ?_, ?_, ?_, ?_, ?_, ?_⟩
  · intro r hr
    obtain ⟨parts, hlen, rfl⟩ := mem_contraintesLines _ _ hr
    refine ⟨rfl, ?_⟩
    intro kv hkv
    simp only [contrainteRow, List.mem_cons, List.not_mem_nil, or_false] at hkv
    rcases hkv with rfl | rfl | rfl | rfl <;> rfl
  · intro r hr
    obtain ⟨parts, hlen, rfl⟩ := mem_risquesLines _ _ hr
    refine ⟨rfl, ?_⟩
    intro kv hkv
    simp only [risqueRow, List.mem_cons, List.not_mem_nil, or_false] at hkv
    rcases hkv with rfl | rfl | rfl | rfl | rfl <;> rfl
  · intro r hr
    obtain ⟨parts, hlen, rfl⟩ := mem_livrablesLines _ _ hr
    refine ⟨rfl, ?_⟩
    intro kv hkv
    simp only [livrableRow, List.mem_cons, List.not_mem_nil, or_false] at hkv
    rcases hkv with rfl | rfl | rfl | rfl <;> rfl
  · intro r hr
    obtain ⟨j, parts, hj⟩ := mem_jalonsLines 0 _ _ hr
    rcases hj with rfl | rfl
    · refine ⟨rfl, ?_⟩
      intro kv hkv
      simp only [jalonRowFull, List.mem_cons, List.not_mem_nil, or_false] at hkv
      rcases hkv with rfl | rfl | rfl | rfl <;> rfl
    · refine ⟨rfl, ?_⟩
      intro kv hkv
      simp only [jalonRowFallback, List.mem_cons, List.not_mem_nil,
        or_false] at hkv
      rcases hkv with rfl | rfl | rfl | rfl <;> rfl
  · intro r hr
    obtain ⟨j, parts, hj⟩ := mem_phasesLines 0 _ _ hr
    rcases hj with rfl | rfl
    · refine ⟨rfl, ?_⟩
      intro kv hkv
      simp only [phaseRowFull, List.mem_cons, List.not_mem_nil, or_false] at hkv
      rcases hkv with rfl | rfl | rfl | rfl | rfl | rfl <;> rfl
    · refine ⟨rfl, ?_⟩
      intro kv hkv
      simp only [phaseRowFallback, List.mem_cons, List.not_mem_nil,
        or_false] at hkv
      rcases hkv with rfl | rfl | rfl | rfl | rfl | rfl <;> rfl
  · intro r hr
    obtain ⟨parts, hlen, rfl⟩ := mem_coutsConstructionLines _ _ hr
    refine ⟨rfl, ?_⟩
    intro kv hkv
    simp only [coutConstructionRow, List.mem_cons, List.not_mem_nil,
      or_false] at hkv
    rcases hkv with rfl | rfl | rfl | rfl | rfl <;> rfl
  · intro rows hrows r hr
    obtain ⟨parts, hlen, rfl⟩ :=
      mem_coutsFonctionnementLines _ _ _ hrows hr
    exact ⟨(extract_number (parts.getD 2 []) : ℚ) / 12, parts.getD 0 [],
      parts.getD 1 [], parts.getD 3 [],
      if 4 < parts.length then parts.getD 4 [] else [], rfl⟩
  · exact (contraintesLines_length_le _).trans (decoderLines_length_le 5 _)
  · exact (risquesLines_length_le _).trans (decoderLines_length_le 6 _)
  · exact (livrablesLines_length_le _).trans (decoderLines_length_le 6 _)
  · exact (jalonsLines_length_le 0 _).trans (decoderLines_length_le 5 _)
  · exact (phasesLines_length_le 0 _).trans (decoderLines_length_le 8 _)
  · exact (coutsConstructionLines_length_le _).trans
      (decoderLines_length_le 7 _)
  · intro rows hrows
    exact (coutsFonctionnementLines_length_le _ _ hrows).trans
      (decoderLines_length_le 7 _)

/-- Witness for `decoder_record_shape`: the decoded `phases` row of a
concrete 5-column line has the six positional keys `col0`-`col5`. -/
theorem decoder_record_shape_witness :
    ((parse_phases (("a|b|c|d|e").toList)).headD []).map Prod.fst =
      [("col0"), ("col1"), ("col2"), ("col3"), ("col4"), ("col5")] :=
  ((decoder_record_shape (("a|b|c|d|e").toList)).2.2.2.2.1
    ((parse_phases (("a|b|c|d|e").toList)).headD []) (by decide)).1

/-- Claim C8 counterexample: the decoded `phases` record of a 5-column
line has 6 positional keys, one more than the 5 columns declared by
`TABLE_FIELDS` for `phases`; and a decoded `coutsFonctionnement` record
stores a number (not a string) at `col2`.  Both refute "number of
columns exactly the schema column count" / "mapping ... to string
values". -/
theorem phases_keycount_mismatch :
    (((parse_phases (("a|b|c|d|e").toList)).headD []).map Prod.fst).length
      = 6 ∧
    ((TABLE_FIELDS.lookup ("phases")).getD []).length = 5 ∧
    parse_couts_fonctionnement (("a|2|24|999").toList) =
      some [[(("col0"), .str (("a").toList)),
             (("col1"), .str (("2").toList)),
             (("col2"), .num ((extract_number (("24").toList) : ℚ) / 12)),
             (("col3"), .str (("999").toList)),
             (("col4"), .str [])]] ∧
    (PyVal.num ((extract_number (("24").toList) : ℚ) / 12)).isString
      = false := by
  refine ⟨by decide, by decide, rfl, rfl⟩

/-- Claim C7 (amended): every decoded construction-cost row stores the
derived total in the total column: `col1 = str(a)`, `col2 = str(b)` and
`col3 = str(a * b)` for the two extracted numbers `a` (day count) and
`b` (daily rate).  Every decoded operating-cost row stores the derived
monthly price (`annual / 12`) in `col2`, but the computed annualised
total (`quantity * monthly * 12`) is *discarded*: `col3` keeps the raw
text of the fourth cell. -/
theorem cost_totals_spec (content : Str) :
    (∀ r ∈ parse_couts_construction content,
      ∃ a b : Nat, r.lookup ("col1") = some (.str (natToStr a)) ∧
        r.lookup ("col2") = some (.str (natToStr b)) ∧
        r.lookup ("col3") = some (.str (natToStr (a * b)))) ∧
    (∀ rows, parse_couts_fonctionnement content = some rows →
      ∀ r ∈ rows, ∃ (n : Nat) (s1 s3 : Str),
        r.lookup ("col1") = some (.str s1) ∧
        r.lookup ("col2") = some (.num ((n : ℚ) / 12)) ∧
        r.lookup ("col3") = some (.str s3)) := by
  constructor
  · intro r hr
    obtain ⟨parts, hlen, rfl⟩ := mem_coutsConstructionLines _ _ hr
    exact ⟨extract_number (parts.getD 1 []), extract_number (parts.getD 2 []),
      rfl, rfl, rfl⟩
  · intro rows hrows r hr
    obtain ⟨parts, hlen, rfl⟩ :=
      mem_coutsFonctionnementLines _ _ _ hrows hr
    exact ⟨extract_number (parts.getD 2 []), parts.getD 1 [],
      parts.getD 3 [], rfl, rfl, rfl⟩

/-- Witness for `cost_totals_spec`: the construction row `dev|10|500`
stores `col3 = "5000" = str(10 * 500)`. -/
theorem cost_totals_spec_witness :
    ∃ a b : Nat,
      ((parse_couts_construction (("dev|10|500").toList)).headD
        []).lookup ("col1") = some (.str (natToStr a)) ∧
      ((parse_couts_construction (("dev|10|500").toList)).headD
        []).lookup ("col2") = some (.str (natToStr b)) ∧
      ((parse_couts_construction (("dev|10|500").toList)).headD
        []).lookup ("col3") = some (.str (natToStr (a * b))) :=
  (cost_totals_spec (("dev|10|500").toList)).1
    ((parse_couts_construction (("dev|10|500").toList)).headD [])
    (by decide)

/-- Claim C7 counterexample: in the operating-cost row `a|2|24|999`
(quantity 2, annual price 24), the claimed derived total is
`2 * (24 / 12) * 12 = 48`, but the decoded total column `col3` is the
raw text `"999"` — the product is computed but never stored, so the
total does not equal quantity × derived monthly price × 12. -/
theorem fonctionnement_total_not_derived :
    parse_couts_fonctionnement (("a|2|24|999").toList) =
      some [[(("col0"), .str (("a").toList)),
             (("col1"), .str (("2").toList)),
             (("col2"), .num ((extract_number (("24").toList) : ℚ) / 12)),
             (("col3"), .str (("999").toList)),
             (("col4"), .str [])]] ∧
    extract_number (("2").toList) = 2 ∧
    extract_number (("24").toList) = 24 ∧
    (2 : ℚ) * ((24 : ℚ) / 12) * 12 = 48 ∧
    extract_number (("999").toList) = 999 ∧ (999 : ℚ) ≠ 48 := by
  refine ⟨rfl, by decide, by decide, by norm_num, by decide, by norm_num⟩

theorem takeWhile_append_cons (p : Char → Bool) (a : Str) (c : Char) (b : Str)
    (ha : ∀ x ∈ a, p x) (hc : p c = false) : (a ++ c :: b).takeWhile p = a := by
  induction a with
  | nil => simp [List.takeWhile_cons, hc]
  | cons x xs ih =>
    have hx : p x := ha x (by simp)
    simp only [List.cons_append, List.takeWhile_cons, hx, if_true]
    rw [ih (fun y hy => ha y (by simp [hy]))]

theorem no_colon_chars (f : String) (hf : (':') ∉ f.toList) :
    ∀ x ∈ f.toList, (fun c => c != ':') x = true := by
  intro x hx
  simp only [bne_iff_ne, ne_eq]
  intro he
  subst he
  exact hf hx

theorem blockField_scalarBlock (f : String) (v : CtxVal)
    (hf : (':') ∉ f.toList) : blockField (scalarBlock f v) = f.toList := by
  unfold blockField scalarBlock
  rw [List.append_assoc]
  exact takeWhile_append_cons _ f.toList ':' (' ' :: v.pyStr)
    (no_colon_chars f hf) (by simp)

theorem blockField_tableBlock (f : String) (v : Str)
    (hf : (':') ∉ f.toList) : blockField (tableBlock f v) = f.toList := by
  unfold blockField tableBlock
  rw [List.append_assoc]
  exact takeWhile_append_cons _ f.toList ':' ('\n' :: v)
    (no_colon_chars f hf) (by simp)

theorem lookup_mem {β : Type} {l : List (String × β)} {k : String} {v : β}
    (h : l.lookup k = some v) : (k, v) ∈ l := by
  induction l with
  | nil => simp [List.lookup] at h
  | cons kv rest ih =>
    cases kv with
    | mk a b =>
      by_cases he : a = k
      · subst he
        rw [List.lookup_cons_self] at h
        simp only [Option.some.injEq] at h
        subst h
        exact List.mem_cons_self _ _
      · have hne : (k == a) = false := by
          simp only [beq_eq_false_iff_ne, ne_eq]
          exact fun hk => he hk.symm
        rw [List.lookup_cons] at h
        simp only [hne] at h
        exact List.mem_cons_of_mem _ (ih h)

/-- `addStep` either leaves the state unchanged (empty formatted table)
or appends exactly one block for `f` and marks `f` used. -/
theorem addStep_spec (ctx : Context) (acc : CtxAcc) (f : String)
    (hf : (':') ∉ f.toList) :
    addStep ctx acc f = acc ∨
    ∃ blk, blockField blk = f.toList ∧
      addStep ctx acc f = (acc.1 ++ [blk], acc.2 ++ [f]) := by
  unfold addStep
  split
  · split
    · right
      exact ⟨_, blockField_tableBlock f _ hf, rfl⟩
    · left; rfl
  · right
    exact ⟨_, blockField_scalarBlock f _ hf, rfl⟩

/-- `addAlways` leaves the state unchanged, or marks `f` used while
appending at most one block for `f`. -/
theorem addAlways_spec (ctx : Context) (acc : CtxAcc) (f : String)
    (hf : (':') ∉ f.toList) :
    addAlways ctx acc f = acc ∨
    (addAlways ctx acc f).2 = acc.2 ++ [f] ∧
      ((addAlways ctx acc f).1 = acc.1 ∨
       ∃ blk, blockField blk = f.toList ∧
         (addAlways ctx acc f).1 = acc.1 ++ [blk]) := by
  unfold addAlways
  split
  · left; rfl
  · split
    · split
      · split
        · right
          exact ⟨rfl, Or.inr ⟨_, blockField_tableBlock f _ hf, rfl⟩⟩
        · right
          exact ⟨rfl, Or.inl rfl⟩
      · right
        exact ⟨rfl, Or.inr ⟨_, blockField_scalarBlock f _ hf, rfl⟩⟩
    · left; rfl

/-- Invariant transfer through the `ALWAYS_INCLUDED` fold: `used_fields`
stays duplicate-free and target-free, every context block belongs to a
used field, and the newly used fields come from `fs`. -/
theorem foldl_addAlways_good (ctx : Context) (target : String)
    (fs : List String) (acc : CtxAcc)
    (hfs_nodup : fs.Nodup) (hfs_colon : ∀ f ∈ fs, (':') ∉ f.toList)
    (hfs_target : target ∉ fs) (hfs_new : ∀ f ∈ fs, f ∉ acc.2)
    (hnodup : acc.2.Nodup) (htarget : target ∉ acc.2)
    (hsub : List.Sublist (acc.1.map blockField) (acc.2.map String.toList)) :
    (fs.foldl (addAlways ctx) acc).2.Nodup ∧
    target ∉ (fs.foldl (addAlways ctx) acc).2 ∧
    List.Sublist ((fs.foldl (addAlways ctx) acc).1.map blockField)
      ((fs.foldl (addAlways ctx) acc).2.map String.toList) ∧
    ∃ extra, (fs.foldl (addAlways ctx) acc).2 = acc.2 ++ extra ∧
      ∀ f ∈ extra, f ∈ fs := by
  induction fs generalizing acc with
  | nil => exact ⟨hnodup, htarget, hsub, [], by simp, by simp⟩
  | cons f fs ih =>
    have hf : (':') ∉ f.toList := hfs_colon f (by simp)
    rw [List.foldl_cons]
    rcases addAlways_spec ctx acc f hf with heq | ⟨hused, hparts⟩
    · rw [heq]
      obtain ⟨h1, h2, h3, extra, hex, hexmem⟩ := ih acc hfs_nodup.of_cons
        (fun g hg => hfs_colon g (by simp [hg]))
        (fun hg => hfs_target (by simp [hg]))
        (fun g hg => hfs_new g (by simp [hg])) hnodup htarget hsub
      exact ⟨h1, h2, h3, extra, hex, fun g hg => by
        simp [hexmem g hg]⟩
    · have hnodup' : (addAlways ctx acc f).2.Nodup := by
        rw [hused]
        refine List.Nodup.append hnodup (by simp) ?_
        intro g hg hg'
        simp only [List.mem_singleton] at hg'
        subst hg'
        exact hfs_new g (by simp) hg
      have htarget' : target ∉ (addAlways ctx acc f).2 := by
        rw [hused]
        intro hmem
        rcases List.mem_append.mp hmem with hmem | hmem
        · exact htarget hmem
        · simp only [List.mem_singleton] at hmem
          exact hfs_target (by simp [hmem])
      have hsub' : List.Sublist ((addAlways ctx acc f).1.map blockField)
          ((addAlways ctx acc f).2.map String.toList) := by
        rw [hused]
        rcases hparts with hsame | ⟨blk, hblk, happ⟩
        · rw [hsame]
          simp only [List.map_append]
          exact hsub.trans (List.sublist_append_left _ _)
        · rw [happ]
          simp only [List.map_append, List.map_cons, List.map_nil, hblk]
          exact List.Sublist.append hsub (List.Sublist.refl _)
      have hnew' : ∀ g ∈ fs, g ∉ (addAlways ctx acc f).2 := by
        intro g hg
        rw [hused]
        intro hmem
        rcases List.mem_append.mp hmem with hmem | hmem
        · exact hfs_new g (by simp [hg]) hmem
        · simp only [List.mem_singleton] at hmem
          subst hmem
          exact (List.nodup_cons.mp hfs_nodup).1 hg
      obtain ⟨h1, h2, h3, extra, hex, hexmem⟩ := ih (addAlways ctx acc f)
        hfs_nodup.of_cons (fun g hg => hfs_colon g (by simp [hg]))
        (fun hg => hfs_target (by simp [hg])) hnew' hnodup' htarget' hsub'
      refine ⟨h1, h2, h3, f :: extra, ?_, ?_⟩
      · rw [hex, hused]; simp
      · intro g hg
        rcases List.mem_cons.mp hg with rfl | hg
        · simp
        · simp [hexmem g hg]

/-- Invariant transfer through the relevant-fields loop. -/
theorem relLoop_good (ctx : Context) (target : String)
    (fs : List String) (acc : CtxAcc)
    (hfs_colon : ∀ f ∈ fs, (':') ∉ f.toList) (hfs_target : target ∉ fs)
    (hnodup : acc.2.Nodup) (htarget : target ∉ acc.2)
    (hsub : List.Sublist (acc.1.map blockField) (acc.2.map String.toList)) :
    (relLoop ctx fs acc).2.Nodup ∧
    target ∉ (relLoop ctx fs acc).2 ∧
    List.Sublist ((relLoop ctx fs acc).1.map blockField)
      ((relLoop ctx fs acc).2.map String.toList) ∧
    ∃ extra, (relLoop ctx fs acc).2 = acc.2 ++ extra ∧
      ∀ f ∈ extra, f ∈ fs := by
  induction fs generalizing acc with
  | nil => exact ⟨hnodup, htarget, hsub, [], by simp [relLoop], by simp⟩
  | cons f fs ih =>
    have hf : (':') ∉ f.toList := hfs_colon f (by simp)
    unfold relLoop
    split
    · next hguard =>
      rcases addStep_spec ctx acc f hf with heq | ⟨blk, hblk, happ⟩
      · rw [heq]
        obtain ⟨h1, h2, h3, extra, hex, hexmem⟩ := ih acc
          (fun g hg => hfs_colon g (by simp [hg]))
          (fun hg => hfs_target (by simp [hg])) hnodup htarget hsub
        exact ⟨h1, h2, h3, extra, hex, fun g hg => by simp [hexmem g hg]⟩
      · have hnodup' : (addStep ctx acc f).2.Nodup := by
          rw [happ]
          refine List.Nodup.append hnodup (by simp) ?_
          intro g hg hg'
          simp only [List.mem_singleton] at hg'
          subst hg'
          exact hguard.2 hg
        have htarget' : target ∉ (addStep ctx acc f).2 := by
          rw [happ]
          intro hmem
          rcases List.mem_append.mp hmem with hmem | hmem
          · exact htarget hmem
          · simp only [List.mem_singleton] at hmem
            exact hfs_target (by simp [hmem])
        have hsub' : List.Sublist ((addStep ctx acc f).1.map blockField)
            ((addStep ctx acc f).2.map String.toList) := by
          rw [happ]
          simp only [List.map_append, List.map_cons, List.map_nil, hblk]
          exact List.Sublist.append hsub (List.Sublist.refl _)
        obtain ⟨h1, h2, h3, extra, hex, hexmem⟩ := ih (addStep ctx acc f)
          (fun g hg => hfs_colon g (by simp [hg]))
          (fun hg => hfs_target (by simp [hg])) hnodup' htarget' hsub'
        refine ⟨h1, h2, h3, f :: extra, ?_, ?_⟩
        · rw [hex, happ]; simp
        · intro g hg
          rcases List.mem_cons.mp hg with rfl | hg
          · simp
          · simp [hexmem g hg]
    · obtain ⟨h1, h2, h3, extra, hex, hexmem⟩ := ih acc
        (fun g hg => hfs_colon g (by simp [hg]))
        (fun hg => hfs_target (by simp [hg])) hnodup htarget hsub
      exact ⟨h1, h2, h3, extra, hex, fun g hg => by simp [hexmem g hg]⟩

/-- Invariant transfer through the *full*-strategy pool loop; the newly
used fields form a sublist of the pool and are all present in the
context. -/
theorem poolLoop_good (ctx : Context) (target : String)
    (fs : List String) (acc : CtxAcc)
    (hfs_colon : ∀ f ∈ fs, (':') ∉ f.toList) (hfs_target : target ∉ fs)
    (hfs_nodup : fs.Nodup) (hfs_new : ∀ f ∈ fs, f ∉ acc.2)
    (hnodup : acc.2.Nodup) (htarget : target ∉ acc.2)
    (hsub : List.Sublist (acc.1.map blockField) (acc.2.map String.toList)) :
    (poolLoop ctx fs acc).2.Nodup ∧
    target ∉ (poolLoop ctx fs acc).2 ∧
    List.Sublist ((poolLoop ctx fs acc).1.map blockField)
      ((poolLoop ctx fs acc).2.map String.toList) ∧
    ∃ extra, (poolLoop ctx fs acc).2 = acc.2 ++ extra ∧
      List.Sublist extra fs ∧ ∀ f ∈ extra, (ctx.lookup f).isSome := by
  induction fs generalizing acc with
  | nil => exact ⟨hnodup, htarget, hsub, [], by simp [poolLoop],
      List.Sublist.refl _, by simp⟩
  | cons f fs ih =>
    have hf : (':') ∉ f.toList := hfs_colon f (by simp)
    unfold poolLoop
    split
    · next hguard =>
      rcases addStep_spec ctx acc f hf with heq | ⟨blk, hblk, happ⟩
      · rw [heq]
        obtain ⟨h1, h2, h3, extra, hex, hexsub, hexsome⟩ := ih acc
          (fun g hg => hfs_colon g (by simp [hg]))
          (fun hg => hfs_target (by simp [hg])) hfs_nodup.of_cons
          (fun g hg => hfs_new g (by simp [hg])) hnodup htarget hsub
        exact ⟨h1, h2, h3, extra, hex, hexsub.trans (List.sublist_cons_self _ _),
          hexsome⟩
      · have hnodup' : (addStep ctx acc f).2.Nodup := by
          rw [happ]
          refine List.Nodup.append hnodup (by simp) ?_
          intro g hg hg'
          simp only [List.mem_singleton] at hg'
          subst hg'
          exact hfs_new g (by simp) hg
        have htarget' : target ∉ (addStep ctx acc f).2 := by
          rw [happ]
          intro hmem
          rcases List.mem_append.mp hmem with hmem | hmem
          · exact htarget hmem
          · simp only [List.mem_singleton] at hmem
            exact hfs_target (by simp [hmem])
        have hsub' : List.Sublist ((addStep ctx acc f).1.map blockField)
            ((addStep ctx acc f).2.map String.toList) := by
          rw [happ]
          simp only [List.map_append, List.map_cons, List.map_nil, hblk]
          exact List.Sublist.append hsub (List.Sublist.refl _)
        have hnew' : ∀ g ∈ fs, g ∉ (addStep ctx acc f).2 := by
          intro g hg
          rw [happ]
          intro hmem
          rcases List.mem_append.mp hmem with hmem | hmem
          · exact hfs_new g (by simp [hg]) hmem
          · simp only [List.mem_singleton] at hmem
            subst hmem
            exact (List.nodup_cons.mp hfs_nodup).1 hg
        obtain ⟨h1, h2, h3, extra, hex, hexsub, hexsome⟩ :=
          ih (addStep ctx acc f)
            (fun g hg => hfs_colon g (by simp [hg]))
            (fun hg => hfs_target (by simp [hg])) hfs_nodup.of_cons hnew'
            hnodup' htarget' hsub'
        refine ⟨h1, h2, h3, f :: extra, ?_, List.Sublist.cons₂ f hexsub, ?_⟩
        · rw [hex, happ]; simp
        · intro g hg
          rcases List.mem_cons.mp hg with rfl | hg
          · exact hguard
          · exact hexsome g hg
    · obtain ⟨h1, h2, h3, extra, hex, hexsub, hexsome⟩ := ih acc
        (fun g hg => hfs_colon g (by simp [hg]))
        (fun hg => hfs_target (by simp [hg])) hfs_nodup.of_cons
        (fun g hg => hfs_new g (by simp [hg])) hnodup htarget hsub
      exact ⟨h1, h2, h3, extra, hex, hexsub.trans (List.sublist_cons_self _ _),
        hexsome⟩

theorem relevantOf_colon (target : String)
    (hR : ∀ kv ∈ RELEVANT_CONTEXT, ∀ f ∈ kv.2, (':') ∉ f.toList)
    (n : Nat) : ∀ f ∈ relevantOf target n, (':') ∉ f.toList := by
  intro f hf
  unfold relevantOf at hf
  cases h : RELEVANT_CONTEXT.lookup target with
  | none => rw [h] at hf; simp at hf
  | some v =>
    rw [h] at hf
    simp only [Option.getD_some] at hf
    exact hR (target, v) (lookup_mem h) f (List.mem_of_mem_take hf)

theorem relevantOf_self (target : String)
    (hR : ∀ kv ∈ RELEVANT_CONTEXT, kv.1 ∉ kv.2)
    (n : Nat) : target ∉ relevantOf target n := by
  intro hf
  unfold relevantOf at hf
  cases h : RELEVANT_CONTEXT.lookup target with
  | none => rw [h] at hf; simp at hf
  | some v =>
    rw [h] at hf
    simp only [Option.getD_some] at hf
    exact hR (target, v) (lookup_mem h) (List.mem_of_mem_take hf)

/-- `addStep` on a fresh non-target colon-free field preserves the
no-duplicate / no-target / blocks-track-used invariant. -/
theorem addStep_good (ctx : Context) (target f : String) (acc : CtxAcc)
    (hf : (':') ∉ f.toList) (hfnew : f ∉ acc.2) (hftarget : f ≠ target)
    (hnodup : acc.2.Nodup) (htarget : target ∉ acc.2)
    (hsub : List.Sublist (acc.1.map blockField) (acc.2.map String.toList)) :
    (addStep ctx acc f).2.Nodup ∧
    target ∉ (addStep ctx acc f).2 ∧
    List.Sublist ((addStep ctx acc f).1.map blockField)
      ((addStep ctx acc f).2.map String.toList) := by
  rcases addStep_spec ctx acc f hf with heq | ⟨blk, hblk, happ⟩
  · rw [heq]
    exact ⟨hnodup, htarget, hsub⟩
  · rw [happ]
    refine ⟨?_, ?_, ?_⟩
    · refine List.Nodup.append hnodup (by simp) ?_
      intro g hg hg'
      simp only [List.mem_singleton] at hg'
      subst hg'
      exact hfnew hg
    · intro hmem
      rcases List.mem_append.mp hmem with hmem | hmem
      · exact htarget hmem
      · simp only [List.mem_singleton] at hmem
        exact hftarget hmem.symm
    · simp only [List.map_append, List.map_cons, List.map_nil, hblk]
      exact List.Sublist.append hsub (List.Sublist.refl _)

/-- Claim C10 (amended): for every strategy, every target field *outside
the always-included metadata set*, every caller context, and every
outcome of the random draws, the assembled context contains no block
for the target field, no two blocks for the same field, and the
returned used-fields list is duplicate-free and target-free.  (A target
inside `ALWAYS_INCLUDED` — e.g. `client` — IS re-included by step 1,
which performs no self-exclusion; see the counterexample.) -/
theorem context_assembler_no_target_no_dup
    (shuffle : List String → List String) (choice : List String → String)
    (randint35 : Nat) (target : String) (frontend : Context)
    (complexity : String)
    (hshuffle : ∀ l : List String, (shuffle l).Perm l)
    (hchoice : ∀ l : List String, l ≠ [] → choice l ∈ l)
    (htarget : target ∉ ALWAYS_INCLUDED) :
    (build_context_core shuffle choice randint35 target frontend
      complexity).2.Nodup ∧
    target ∉ (build_context_core shuffle choice randint35 target frontend
      complexity).2 ∧
    ((build_context_core shuffle choice randint35 target frontend
      complexity).1.map blockField).Nodup ∧
    target.toList ∉ (build_context_core shuffle choice randint35 target
      frontend complexity).1.map blockField := by
  have hinj : Function.Injective String.toList := by
    intro a b hab
    cases a
    cases b
    simp only [String.toList] at hab
    exact congrArg String.mk hab
  suffices h :
      (build_context_core shuffle choice randint35 target frontend
        complexity).2.Nodup ∧
      target ∉ (build_context_core shuffle choice randint35 target frontend
        complexity).2 ∧
      List.Sublist ((build_context_core shuffle choice randint35 target
          frontend complexity).1.map blockField)
        ((build_context_core shuffle choice randint35 target frontend
          complexity).2.map String.toList) by
    obtain ⟨h1, h2, h3⟩ := h
    refine ⟨h1, h2, h3.nodup (h1.map hinj), ?_⟩
    intro hmem
    have hmem2 := h3.subset hmem
    rcases List.mem_map.mp hmem2 with ⟨u, hu, hue⟩
    exact h2 (hinj hue ▸ hu)
  have hA_nodup : ALWAYS_INCLUDED.Nodup := by decide
  have hA_colon : ∀ f ∈ ALWAYS_INCLUDED, (':') ∉ f.toList := by decide
  have hF_nodup : FIELD_GENERATION_ORDER.Nodup := by decide
  have hF_colon : ∀ f ∈ FIELD_GENERATION_ORDER, (':') ∉ f.toList := by decide
  have hR_self : ∀ kv ∈ RELEVANT_CONTEXT, kv.1 ∉ kv.2 := by decide
  have hR_colon : ∀ kv ∈ RELEVANT_CONTEXT, ∀ f ∈ kv.2, (':') ∉ f.toList := by
    decide
  simp only [build_context_core]
  set ctx := map_frontend_to_model_fields frontend with hctx
  obtain ⟨h0nodup, h0target, h0sub, _⟩ :=
    foldl_addAlways_good ctx target ALWAYS_INCLUDED ([], []) hA_nodup
      hA_colon htarget (by simp) (by simp) (by simp) (by simp)
  have havail_mem : ∀ g ∈ FIELD_GENERATION_ORDER.filter
      (fun f => f ≠ target), g ∈ FIELD_GENERATION_ORDER ∧ g ≠ target := by
    intro g hg
    have := List.mem_filter.mp hg
    exact ⟨this.1, by simpa using this.2⟩
  split
  · -- minimal
    obtain ⟨h1, h2, h3, _⟩ := relLoop_good ctx target (relevantOf target 2)
      (ALWAYS_INCLUDED.foldl (addAlways ctx) ([], []))
      (relevantOf_colon target hR_colon 2)
      (relevantOf_self target hR_self 2) h0nodup h0target h0sub
    exact ⟨h1, h2, h3⟩
  · split
    · -- medium / related
      obtain ⟨h1, h2, h3, _⟩ := relLoop_good ctx target
        (relevantOf target 3)
        (ALWAYS_INCLUDED.foldl (addAlways ctx) ([], []))
        (relevantOf_colon target hR_colon 3)
        (relevantOf_self target hR_self 3) h0nodup h0target h0sub
      split
      · next hne =>
        split
        · -- chosen field present: one addStep
          have hchosen := hchoice _ hne
          have hch := List.mem_filter.mp hchosen
          have hchA := havail_mem _ hch.1
          have hchP : choice ((FIELD_GENERATION_ORDER.filter
              (fun f => f ≠ target)).filter
              (fun f => f ∉ relevantOf target 3 ∧
                f ∉ (relLoop ctx (relevantOf target 3)
                  (ALWAYS_INCLUDED.foldl (addAlways ctx) ([], []))).2)) ∉
              (relLoop ctx (relevantOf target 3)
                (ALWAYS_INCLUDED.foldl (addAlways ctx) ([], []))).2 := by
            have := of_decide_eq_true hch.2
            exact this.2
          exact addStep_good ctx target _ _
            (hF_colon _ hchA.1) hchP hchA.2 h1 h2 h3
        · exact ⟨h1, h2, h3⟩
      · exact ⟨h1, h2, h3⟩
    · -- full
      obtain ⟨h1, h2, h3, _⟩ := relLoop_good ctx target
        (relevantOf target 2)
        (ALWAYS_INCLUDED.foldl (addAlways ctx) ([], []))
        (relevantOf_colon target hR_colon 2)
        (relevantOf_self target hR_self 2) h0nodup h0target h0sub
      have hrf_nodup : ((FIELD_GENERATION_ORDER.filter
          (fun f => f ≠ target)).filter
          (fun f => f ∉ relevantOf target 2 ∧
            f ∉ (relLoop ctx (relevantOf target 2)
              (ALWAYS_INCLUDED.foldl (addAlways ctx) ([], []))).2)).Nodup :=
        (hF_nodup.filter _).filter _
      have hpool_mem : ∀ g ∈ (shuffle ((FIELD_GENERATION_ORDER.filter
          (fun f => f ≠ target)).filter
          (fun f => f ∉ relevantOf target 2 ∧
            f ∉ (relLoop ctx (relevantOf target 2)
              (ALWAYS_INCLUDED.foldl (addAlways ctx) ([], []))).2))).take
          randint35,
          g ∈ (FIELD_GENERATION_ORDER.filter (fun f => f ≠ target)).filter
          (fun f => f ∉ relevantOf target 2 ∧
            f ∉ (relLoop ctx (relevantOf target 2)
              (ALWAYS_INCLUDED.foldl (addAlways ctx) ([], []))).2) := by
        intro g hg
        exact ((hshuffle _).mem_iff).mp (List.mem_of_mem_take hg)
      have hpool_nodup : ((shuffle ((FIELD_GENERATION_ORDER.filter
          (fun f => f ≠ target)).filter
          (fun f => f ∉ relevantOf target 2 ∧
            f ∉ (relLoop ctx (relevantOf target 2)
              (ALWAYS_INCLUDED.foldl (addAlways ctx) ([], []))).2))).take
          randint35).Nodup :=
        ((List.take_sublist _ _).nodup
          (((hshuffle _).nodup_iff).mpr hrf_nodup))
      obtain ⟨g1, g2, g3, _⟩ := poolLoop_good ctx target _ _
        (fun g hg => hF_colon g (havail_mem _
          (List.mem_filter.mp (hpool_mem g hg)).1).1)
        (fun hg => (havail_mem _
          (List.mem_filter.mp (hpool_mem target hg)).1).2 rfl)
        hpool_nodup
        (fun g hg =>
          (of_decide_eq_true (List.mem_filter.mp (hpool_mem g hg)).2).2)
        h1 h2 h3
      exact ⟨g1, g2, g3⟩

/-- Witness for `context_assembler_no_target_no_dup`: a concrete
*medium* assembly for target `risques` with a populated context has a
duplicate-free, target-free used-field list and block list. -/
theorem context_assembler_no_target_no_dup_witness :
    (build_context_core (fun l => l) (fun l => l.headD ("")) 3 ("risques")
      [(("client"), .str (("ACME").toList)),
       (("besoin"), .str (("B").toList))] ("medium")).2.Nodup ∧
    ("risques") ∉ (build_context_core (fun l => l) (fun l => l.headD ("")) 3
      ("risques") [(("client"), .str (("ACME").toList)),
       (("besoin"), .str (("B").toList))] ("medium")).2 ∧
    ((build_context_core (fun l => l) (fun l => l.headD ("")) 3 ("risques")
      [(("client"), .str (("ACME").toList)),
       (("besoin"), .str (("B").toList))] ("medium")).1.map
        blockField).Nodup ∧
    ("risques").toList ∉ (build_context_core (fun l => l)
      (fun l => l.headD ("")) 3 ("risques")
      [(("client"), .str (("ACME").toList)),
       (("besoin"), .str (("B").toList))] ("medium")).1.map blockField :=
  context_assembler_no_target_no_dup (fun l => l) (fun l => l.headD ("")) 3
    ("risques") [(("client"), .str (("ACME").toList)),
     (("besoin"), .str (("B").toList))] ("medium")
    (fun l => List.Perm.refl l)
    (fun l hl => by
      cases l with
      | nil => exact absurd rfl hl
      | cons a as => simp)
    (by decide)

/-- Claim C10 counterexample: the always-included step performs no
self-exclusion, so for the target field `client` (a member of
`ALWAYS_INCLUDED`) with `client` present in the caller context, the
assembled context DOES contain a block for the target field itself and
the used-fields list DOES contain the target. -/
theorem target_client_reincluded :
    ("client") ∈ (build_context_core (fun l => l) (fun l => l.headD (""))
      3 ("client") [(("client"), .str (("X").toList))] ("minimal")).2 ∧
    ("client").toList ∈ (build_context_core (fun l => l)
      (fun l => l.headD ("")) 3 ("client")
      [(("client"), .str (("X").toList))] ("minimal")).1.map blockField := by
  refine ⟨by decide, by decide⟩

theorem addStep_used (ctx : Context) (acc : CtxAcc) (f : String) :
    (addStep ctx acc f).2 = acc.2 ∨ (addStep ctx acc f).2 = acc.2 ++ [f] := by
  unfold addStep
  split
  · split
    · right; rfl
    · left; rfl
  · right; rfl

/-- The used-field delta of the pool loop: the fields appended are a
sublist of the pool and each is present in the context. -/
theorem poolLoop_used_extra (ctx : Context) (fs : List String)
    (acc : CtxAcc) :
    ∃ extra, (poolLoop ctx fs acc).2 = acc.2 ++ extra ∧
      List.Sublist extra fs ∧ ∀ f ∈ extra, (ctx.lookup f).isSome := by
  induction fs generalizing acc with
  | nil => exact ⟨[], by simp [poolLoop], List.Sublist.refl _, by simp⟩
  | cons f fs ih =>
    unfold poolLoop
    split
    · next hguard =>
      rcases addStep_used ctx acc f with heq | happ
      · obtain ⟨extra, hex, hsub, hsome⟩ := ih (addStep ctx acc f)
        refine ⟨extra, by rw [hex, heq], hsub.trans
          (List.sublist_cons_self _ _), hsome⟩
      · obtain ⟨extra, hex, hsub, hsome⟩ := ih (addStep ctx acc f)
        refine ⟨f :: extra, by rw [hex, happ]; simp,
          List.Sublist.cons₂ f hsub, ?_⟩
        intro g hg
        rcases List.mem_cons.mp hg with rfl | hg
        · exact hguard
        · exact hsome g hg
    · obtain ⟨extra, hex, hsub, hsome⟩ := ih acc
      exact ⟨extra, hex, hsub.trans (List.sublist_cons_self _ _), hsome⟩

/-- Claim C6 (amended): under the *full* strategy, after the 2-element
relevant prefix the assembler draws `k = randint(3, 5)` and walks the
first `k` fields of the shuffled pool, appending only those that are
present in the caller context: the appended fields are an in-order
sublist of that `k`-prefix, each present in the context, and their
number is at most `k ≤ 5` — possibly fewer than 3 (down to 0), since
the pool is not filtered for presence before the draw. -/
theorem full_strategy_appends_at_most_k
    (shuffle : List String → List String) (choice : List String → String)
    (randint35 : Nat) (target : String) (frontend : Context)
    (hk3 : 3 ≤ randint35) (hk5 : randint35 ≤ 5) :
    ∃ extra,
      (build_context_core shuffle choice randint35 target frontend
        ("full")).2 =
        (relLoop (map_frontend_to_model_fields frontend)
          (relevantOf target 2)
          (ALWAYS_INCLUDED.foldl
            (addAlways (map_frontend_to_model_fields frontend))
            ([], []))).2 ++ extra ∧
      List.Sublist extra
        ((shuffle ((FIELD_GENERATION_ORDER.filter
          (fun f => f ≠ target)).filter
          (fun f => f ∉ relevantOf target 2 ∧
            f ∉ (relLoop (map_frontend_to_model_fields frontend)
              (relevantOf target 2)
              (ALWAYS_INCLUDED.foldl
                (addAlways (map_frontend_to_model_fields frontend))
                ([], []))).2))).take randint35) ∧
      extra.length ≤ randint35 ∧ randint35 ≤ 5 ∧
      (∀ f ∈ extra,
        ((map_frontend_to_model_fields frontend).lookup f).isSome) := by
  simp only [build_context_core]
  rw [if_neg (by decide), if_neg (by decide)]
  obtain ⟨extra, hex, hsub, hsome⟩ := poolLoop_used_extra
    (map_frontend_to_model_fields frontend) _ _
  refine ⟨extra, hex, hsub, ?_, hk5, hsome⟩
  exact hsub.length_le.trans ((List.length_take _ _).le.trans
    (min_le_left _ _))

/-- Witness for `full_strategy_appends_at_most_k` at an identity shuffle,
`k = 3`, target `contexte_proj` and a one-field context. -/
theorem full_strategy_appends_witness :
    ∃ extra,
      (build_context_core (fun l => l) (fun l => l.headD ("")) 3
        ("contexte_proj") [(("besoin"), .str (("B").toList))]
        ("full")).2 =
        (relLoop (map_frontend_to_model_fields
            [(("besoin"), .str (("B").toList))])
          (relevantOf ("contexte_proj") 2)
          (ALWAYS_INCLUDED.foldl
            (addAlways (map_frontend_to_model_fields
              [(("besoin"), .str (("B").toList))]))
            ([], []))).2 ++ extra ∧
      List.Sublist extra
        (((fun (l : List String) => l) ((FIELD_GENERATION_ORDER.filter
          (fun f => f ≠ ("contexte_proj"))).filter
          (fun f => f ∉ relevantOf ("contexte_proj") 2 ∧
            f ∉ (relLoop (map_frontend_to_model_fields
                [(("besoin"), .str (("B").toList))])
              (relevantOf ("contexte_proj") 2)
              (ALWAYS_INCLUDED.foldl
                (addAlways (map_frontend_to_model_fields
                  [(("besoin"), .str (("B").toList))]))
                ([], []))).2))).take 3) ∧
      extra.length ≤ 3 ∧ (3 : Nat) ≤ 5 ∧
      (∀ f ∈ extra,
        ((map_frontend_to_model_fields
          [(("besoin"), .str (("B").toList))]).lookup f).isSome) :=
  full_strategy_appends_at_most_k (fun l => l) (fun l => l.headD ("")) 3
    ("contexte_proj") [(("besoin"), .str (("B").toList))]
    (by norm_num) (by norm_num)

/-- Claim C6 counterexample: with an empty caller context the *full*
strategy appends NO field at all — the used-field list is empty — so it
does not append "between 3 and 5 (inclusive) fields present in the
caller context" as claimed. -/
theorem full_strategy_appends_zero :
    (build_context_core (fun l => l) (fun l => l.headD ("")) 3
      ("contexte_proj") [] ("full")).2 = [] ∧
    ¬ (3 ≤ ((build_context_core (fun l => l) (fun l => l.headD ("")) 3
      ("contexte_proj") [] ("full")).2).length) := by
  refine ⟨by decide, by decide⟩
